import Mathlib

/-!
# Verification of the BSP layer of `motor_drive_basic_bldc`

Shallow embedding of

* `Source/Bsp/bsp_key.c`     : the debounced key scan `bsp_key_scan`,
* `Source/Bsp/bsp_uart_cb.c` : the factory command recogniser
  `bsp_uart_factory_cmd_analyse`, the RS-485 receive callback
  `bsp_uart_rs485_com_irq_cb` and the flush check `bsp_uart_factory_rs485_check`,
* `Source/Bsp/bsp_uart.c`    : the blocking transmit `bsp_uart_send_data` and the
  initialisation `bsp_uart_init`,
* `Source/Bsp/bsp_systick.c` : the busy wait `bsp_delay_ms`,
* `Source/Bsp/n32g43x_it.c`  : the tick handler and the three UART handlers.

Machine integers are natural numbers; `uint32_t` arithmetic is taken modulo
`2 ^ 32`.  Hardware registers that the code reads (GPIO level, tick counter,
UART status and data) are inputs of the embedded functions; hardware actions
the code performs (GPIO writes, UART sends, busy waits, `printf`) are returned
as a trace.  The busy wait `bsp_delay_ms` runs its loop against the tick counter; a
call that does not leave the loop does not return.
-/

/-! ## `bsp_key.h` / `bsp_key.c` -/

namespace BspKey

/-- Macro `KEY_DOWN_VALUE` (0x01): the value of a pressed key. -/
abbrev KEY_DOWN_VALUE : Nat := 0x01
/-- Macro `KEY_UP_VALUE` (0x00): the value of a released key. -/
abbrev KEY_UP_VALUE : Nat := 0x00

/-- Enumerator `START_STOP_KEY = 0` of `key_num_e`. -/
abbrev START_STOP_KEY : Nat := 0
/-- Enumerator `CW_CCW_KEY` of `key_num_e`. -/
abbrev CW_CCW_KEY : Nat := 1
/-- Enumerator `KEY_MAX` of `key_num_e`. -/
abbrev KEY_MAX : Nat := 2

/-- Enumerator `NOT_ACTIVATION = 0x00` of `key_trigger_status_e` (Idle). -/
abbrev NOT_ACTIVATION : Nat := 0x00
/-- Enumerator `FIRST_ACTIVATION = 0x01` of `key_trigger_status_e` (PendingConfirm). -/
abbrev FIRST_ACTIVATION : Nat := 0x01
/-- Enumerator `REAL_ACTIVATION = 0x02` of `key_trigger_status_e` (Confirmed). -/
abbrev REAL_ACTIVATION : Nat := 0x02

/-- Macro `FILTER_KEEP_TIME` (10) of `bsp_key.c`. -/
abbrev FILTER_KEEP_TIME : Nat := 10

/-- Structure `key_param_t` of `bsp_key.h`. -/
structure key_param_t where
  /-- Field `key_num_e num`. -/
  num : Nat
  /-- Field `uint32_t time`: time recording. -/
  time : Nat
  /-- Field `uint8_t trigger`: trigger tag. -/
  trigger : Nat
  /-- Field `uint8_t down_sign`: the tag of key pressed. -/
  down_sign : Nat
  /-- Field `uint32_t key_down_cnt`: the count of key pressed. -/
  key_down_cnt : Nat
deriving DecidableEq, Repr

/-- The static table `key_scan[]` of `bsp_key.c`, as a map from the array index. -/
def key_scan_init : Nat → key_param_t := fun i =>
  if i = 0 then ⟨START_STOP_KEY, 0, 0, 0, 0⟩
  else if i = 1 then ⟨CW_CCW_KEY, 0, 0, 0, 0⟩
  else ⟨KEY_MAX, 0, 0, 0, 0⟩

/-- Subtraction of two `uint32_t` values: the difference modulo `2 ^ 32`. -/
def u32_sub (a b : Nat) : Nat := (a + (2 ^ 32 - b % 2 ^ 32)) % 2 ^ 32

/-- What the hardware returns to one iteration of the loop of `bsp_key_scan`,
in program order.  `val1` is the level read in STEP1 and `tick1` the tick
counter at that point (the code reads it only when it records a first
trigger); `tick2` is the tick counter read by the test of STEP2 and `val2`
the level re-read there (the code reads it only once the window is over). -/
structure KeyReads where
  /-- Result of `GPIO_ReadInputDataBit` in STEP1. -/
  val1 : Nat
  /-- Result of `bsp_systick_time_get()` in STEP1. -/
  tick1 : Nat
  /-- Result of `bsp_systick_time_get()` in STEP2. -/
  tick2 : Nat
  /-- Result of `GPIO_ReadInputDataBit` in STEP2. -/
  val2 : Nat
deriving DecidableEq, Repr

/-- Function `bsp_key_print`: the lines it hands to `printf`. -/
def bsp_key_print (key_param : key_param_t) : List String :=
  if key_param.num = START_STOP_KEY then ["Start/Stop Key Down\r\n"]
  else if key_param.num = CW_CCW_KEY then ["CW/CCW Key Down\r\n"]
  else []

/-- STEP1 of the loop body: key press detection. -/
def scan_step1 (r : KeyReads) (k : key_param_t) : key_param_t :=
  if r.val1 = KEY_DOWN_VALUE ∧ k.trigger = 0 then
    { k with trigger := FIRST_ACTIVATION, time := r.tick1 }
  else k

/-- STEP2 of the loop body: software anti-shake filtering.  Returns the key,
the value of the local `key_val` afterwards, and the printed lines. -/
def scan_step2 (r : KeyReads) (k : key_param_t) : key_param_t × Nat × List String :=
  if k.trigger = FIRST_ACTIVATION then
    if u32_sub r.tick2 k.time > FILTER_KEEP_TIME then
      if r.val2 = KEY_DOWN_VALUE then
        ({ k with down_sign := KEY_DOWN_VALUE, trigger := REAL_ACTIVATION }, r.val2,
          bsp_key_print { k with down_sign := KEY_DOWN_VALUE })
      else
        ({ k with trigger := REAL_ACTIVATION }, r.val2, [])
    else (k, r.val1, [])
  else (k, r.val1, [])

/-- STEP3 of the loop body: a raised key re-arms the trigger. -/
def scan_step3 (k : key_param_t) (key_val : Nat) : key_param_t :=
  if k.trigger = REAL_ACTIVATION ∧ key_val = KEY_UP_VALUE then
    { k with trigger := NOT_ACTIVATION }
  else k

/-- The body of the `for` loop of `bsp_key_scan` for one key. -/
def bsp_key_scan_body (r : KeyReads) (k : key_param_t) : key_param_t × List String :=
  let k1 := scan_step1 r k
  let s2 := scan_step2 r k1
  (scan_step3 s2.1 s2.2.1, s2.2.2)

/-- Function `bsp_key_scan`: one pass over the keys `0 .. KEY_MAX - 1`.  `reads i` is
what the hardware returns during iteration `i`; the result is the new table
and the lines printed, in order. -/
def bsp_key_scan (reads : Nat → KeyReads) (key_scan : Nat → key_param_t) :
    (Nat → key_param_t) × List String :=
  (List.range KEY_MAX).foldl
    (fun acc i =>
      let b := bsp_key_scan_body (reads i) (acc.1 i)
      (Function.update acc.1 i b.1, acc.2 ++ b.2))
    (key_scan, [])

/-- Successive calls of `bsp_key_scan`, one per element of `rs`. -/
def bsp_key_scan_seq :
    List (Nat → KeyReads) → (Nat → key_param_t) → (Nat → key_param_t) × List String
  | [], ks => (ks, [])
  | r :: rs, ks =>
    let a := bsp_key_scan r ks
    let b := bsp_key_scan_seq rs a.1
    (b.1, a.2 ++ b.2)

/-- The loop body iterated on one key. -/
def key_run : List KeyReads → key_param_t → key_param_t × List String
  | [], k => (k, [])
  | r :: rs, k =>
    let a := bsp_key_scan_body r k
    let b := key_run rs a.1
    (b.1, a.2 ++ b.2)

/-- The tick values read by the iterations `rs` of one key, in program order. -/
def key_ticks : List KeyReads → List Nat
  | [] => []
  | r :: rs => r.tick1 :: r.tick2 :: key_ticks rs

/-- The tick values key `i` sees over the scans `rs`, in program order. -/
def ticks_of (i : Nat) (rs : List (Nat → KeyReads)) : List Nat :=
  key_ticks (rs.map (fun r => r i))

/-- A scan in which every key reads level `v` and the tick counter reads `t`. -/
def reads_at (v t : Nat) : Nat → KeyReads := fun _ => ⟨v, t, t, v⟩

/-- The table after one scan of the initial table in which every key reads DOWN at tick
`t0`: both keys are pending since `t0`. -/
def pending_table (t0 : Nat) : Nat → key_param_t := (bsp_key_scan (reads_at 1 t0) key_scan_init).1

/-- The state a key is in between two scans of a run in which it is DOWN only inside
the span that starts at tick `a`: idle, confirmed, or pending since a tick of the span that
no later tick read precedes. -/
def short_inv (a : Nat) (later : List Nat) (k : key_param_t) : Prop :=
  k.trigger = NOT_ACTIVATION ∨ k.trigger = REAL_ACTIVATION ∨
    (k.trigger = FIRST_ACTIVATION ∧ a ≤ k.time ∧ ∀ t ∈ later, k.time ≤ t)

instance (a : Nat) (later : List Nat) (k : key_param_t) : Decidable (short_inv a later k) := by
  unfold short_inv
  infer_instance

/-- Whether the iteration of `bsp_key_scan` on key `k` with the readings `r` confirms a
press: after STEP1 the key is pending, the elapsed time tested in STEP2 exceeds
`FILTER_KEEP_TIME`, and the level re-read there is DOWN. -/
def confirms (r : KeyReads) (k : key_param_t) : Prop :=
  (scan_step1 r k).trigger = FIRST_ACTIVATION ∧
    FILTER_KEEP_TIME < u32_sub r.tick2 (scan_step1 r k).time ∧ r.val2 = KEY_DOWN_VALUE

instance (r : KeyReads) (k : key_param_t) : Decidable (confirms r k) := by
  unfold confirms
  infer_instance

end BspKey

/-! ## `bsp_systick.c` / `n32g43x_it.c` -/

namespace BspSystick

/-- Handler `SysTick_Handler` of `n32g43x_it.c`: `systick_count++` on the `uint32_t`
counter. -/
def SysTick_Handler (systick_count : Nat) : Nat := (systick_count + 1) % 2 ^ 32

/-- The loop `while (systick_count <= temp);` of `bsp_delay_ms`, polled at least once per
tick, with `SysTick_Handler` advancing the counter between the polls.  The result is the
number of ticks that passed before the loop was left, or `none` when the loop is still
spinning after `fuel` ticks. -/
def delay_loop (temp : Nat) : Nat → Nat → Option Nat
  | 0, systick_count => if systick_count ≤ temp then none else some 0
  | fuel + 1, systick_count =>
    if systick_count ≤ temp then
      (delay_loop temp fuel (SysTick_Handler systick_count)).map (fun n => n + 1)
    else some 0

/-- Function `bsp_delay_ms` entered when the counter reads `systick_count`:
`temp = systick_count + time` in `uint32_t`, then the wait loop. -/
def bsp_delay_ms (time : Nat) (systick_count : Nat) (fuel : Nat) : Option Nat :=
  let temp := (systick_count + time) % 2 ^ 32
  delay_loop temp fuel systick_count

end BspSystick

/-! ## `bsp_uart.h` / `bsp_uart.c` / `bsp_uart_cb.h` / `bsp_uart_cb.c` -/

namespace BspUart

/-- Structure `factory_func_check_t` of `bsp_uart_cb.h`: one `uint8_t` flag per test. -/
structure factory_func_check_t where
  /-- Field `uint8_t can_sign`. -/
  can_sign : Nat
  /-- Field `uint8_t rs485_sign`. -/
  rs485_sign : Nat
  /-- Field `uint8_t pc_com_sign`. -/
  pc_com_sign : Nat
  /-- Field `uint8_t current_sign`. -/
  current_sign : Nat
  /-- Field `uint8_t voltage_sign`. -/
  voltage_sign : Nat
  /-- Field `uint8_t overflow_sign`. -/
  overflow_sign : Nat
  /-- Field `uint8_t temperatur_sign`. -/
  temperatur_sign : Nat
deriving DecidableEq, Repr

/-- The bytes of a string literal (all keywords are ASCII). -/
def str_bytes (s : String) : List Nat := s.toList.map Char.toNat

/-- A C string literal in memory: its bytes, then the terminating NUL. -/
def c_str (s : String) : Nat → Nat := fun i => (str_bytes s).getD i 0

/-- Library function `strncmp` on byte strings given as maps from the offset: compares at
most `n` bytes, stops at the first difference or at a NUL, and returns the difference of
the two bytes there (0 when none differs). -/
def strncmp (s1 s2 : Nat → Nat) : Nat → Int
  | 0 => 0
  | n + 1 =>
    if s1 0 ≠ s2 0 then (s1 0 : Int) - (s2 0 : Int)
    else if s1 0 = 0 then 0
    else strncmp (fun i => s1 (i + 1)) (fun i => s2 (i + 1)) n

/-- The byte array `buf` after the store `buf[i] = v`. -/
def buf_set (buf : Nat → Nat) (i v : Nat) : Nat → Nat := fun j => if j = i then v else buf j

/-- The static variables of `bsp_uart_factory_cmd_analyse` and the global flags it sets. -/
structure CmdState where
  /-- Variable `static uint8_t len`. -/
  len : Nat
  /-- Variable `static uint8_t recv_buf[32]`, as a map from the offset. -/
  recv_buf : Nat → Nat
  /-- Variable `factory_func_check`. -/
  factory_func_check : factory_func_check_t

/-- The seven keyword tests that `bsp_uart_factory_cmd_analyse` runs on a terminated line,
in source order. -/
def cmd_match (recv_buf : Nat → Nat) (f : factory_func_check_t) : factory_func_check_t :=
  let f := if strncmp recv_buf (c_str "CAN") 3 = 0 then { f with can_sign := 0xFF } else f
  let f := if strncmp recv_buf (c_str "RS485") 5 = 0 then { f with rs485_sign := 0xFF } else f
  let f := if strncmp recv_buf (c_str "PC_COM") 6 = 0 then { f with pc_com_sign := 0xFF } else f
  let f := if strncmp recv_buf (c_str "CURRENT") 7 = 0 then { f with current_sign := 0xFF } else f
  let f := if strncmp recv_buf (c_str "VOLTAGE") 7 = 0 then { f with voltage_sign := 0xFF } else f
  let f := if strncmp recv_buf (c_str "OVERFLOW") 8 = 0 then { f with overflow_sign := 0xFF } else f
  let f := if strncmp recv_buf (c_str "TEMPERATUR") 10 = 0 then
      { f with temperatur_sign := 0xFF } else f
  f

/-- Function `bsp_uart_factory_cmd_analyse`.  The result is `none` when the store
`recv_buf[len++] = data` would fall outside the 32-byte array, where C defines no
behaviour. -/
def bsp_uart_factory_cmd_analyse (data : Nat) (s : CmdState) : Option CmdState :=
  if s.len < 32 then
    let recv_buf := buf_set s.recv_buf s.len data
    let len := (s.len + 1) % 256
    let s1 : CmdState :=
      if recv_buf (len - 1) = 10 then
        { len := 0, recv_buf := recv_buf,
          factory_func_check := cmd_match recv_buf s.factory_func_check }
      else
        { len := len, recv_buf := recv_buf, factory_func_check := s.factory_func_check }
    some (if 32 = s1.len then { s1 with len := 0 } else s1)
  else none

/-- Successive calls of `bsp_uart_factory_cmd_analyse`, one per byte. -/
def cmd_feed : List Nat → CmdState → Option CmdState
  | [], s => some s
  | d :: ds, s => (bsp_uart_factory_cmd_analyse d s).bind (cmd_feed ds)

/-- All factory flags clear. -/
def flags_clear : factory_func_check_t := ⟨0, 0, 0, 0, 0, 0, 0⟩

/-- The state at start-up: `len = 0`, `recv_buf = {0}`, all flags clear. -/
def cmd_init : CmdState := ⟨0, fun _ => 0, flags_clear⟩

/-- The keywords of the seven tests, in source order. -/
def keywords : List String :=
  ["CAN", "RS485", "PC_COM", "CURRENT", "VOLTAGE", "OVERFLOW", "TEMPERATUR"]

/-- The buffer after the bytes `bs` have been stored from offset `start` on. -/
def buf_write (buf : Nat → Nat) (start : Nat) : List Nat → Nat → Nat
  | [] => buf
  | b :: bs => buf_write (buf_set buf start b) (start + 1) bs

/-- Two states of the recogniser that are alike: same line index, same flags, and the same
bytes of the current line (the buffer may differ behind the index). -/
def same_line (s t : CmdState) : Prop :=
  s.len = t.len ∧ s.factory_func_check = t.factory_func_check ∧
    ∀ i, i < s.len → s.recv_buf i = t.recv_buf i

instance (s t : CmdState) : Decidable (same_line s t) := by
  unfold same_line
  infer_instance

/-- The hardware instances `USART_Module*` the three channels use. -/
inductive USART_Module where
  | USART3
  | UART4
  | UART5
deriving DecidableEq, Repr

/-- Macro `DEBUG_UART`. -/
abbrev DEBUG_UART : USART_Module := USART_Module.UART4
/-- Macro `HOST_COMPUTER_UART`. -/
abbrev HOST_COMPUTER_UART : USART_Module := USART_Module.UART5
/-- Macro `RS485_UART`. -/
abbrev RS485_UART : USART_Module := USART_Module.USART3

/-- Enumerator `DEBUG_COM = 0` of `uart_com_e`. -/
abbrev DEBUG_COM : Nat := 0
/-- Enumerator `HOST_COMPUTER_COM` of `uart_com_e`. -/
abbrev HOST_COMPUTER_COM : Nat := 1
/-- Enumerator `RS485_COM` of `uart_com_e`. -/
abbrev RS485_COM : Nat := 2

/-- The hardware actions of the UART code, recorded in program order.  The wait for a flag
of the UART is recorded as the action that was waited for; a delay is recorded once it has
returned, with the number of ticks it lasted. -/
inductive Effect where
  /-- Macro `RS485_COM_SEND_ENABLE()`: `GPIO_ResetBits(RS485_EN_GPIO, RS485_EN_PIN)`. -/
  | rs485_send_enable
  /-- Macro `RS485_COM_RECV_ENABLE()`: `GPIO_SetBits(RS485_EN_GPIO, RS485_EN_PIN)`. -/
  | rs485_recv_enable
  /-- Call `bsp_delay_ms(time)` that returned after `ticks` ticks of the counter. -/
  | delay_ms (time : Nat) (ticks : Nat)
  /-- Call `USART_SendData(uart, data)`. -/
  | send_data (uart : USART_Module) (data : Nat)
  /-- Loop `while (USART_GetFlagStatus(uart, USART_FLAG_TXDE) == RESET);`. -/
  | wait_txde (uart : USART_Module)
  /-- Read `(void)uart->STS;`, the value discarded. -/
  | read_sts (uart : USART_Module)
  /-- Read `(void)uart->DAT;`, the value discarded. -/
  | read_dat (uart : USART_Module)
deriving DecidableEq, Repr

/-- What the tick counter shows to one call of `bsp_uart_send_data`, in program order.
Only the case `RS485_COM` reads the counter, inside its two calls of `bsp_delay_ms`. -/
structure TickReads where
  /-- Value of `systick_count` when the `bsp_delay_ms(1)` before the bytes is entered. -/
  tick1 : Nat
  /-- Value of `systick_count` when the `bsp_delay_ms(1)` after the bytes is entered. -/
  tick2 : Nat
  /-- Number of ticks for which each wait loop is followed. -/
  fuel : Nat
deriving DecidableEq, Repr

/-- How a piece of the transmit code ends, with the actions performed up to that point. -/
inductive SendResult where
  /-- It ran to its end. -/
  | returned (tr : List Effect)
  /-- It is inside a loop it has not left: `while(1);`, or the wait loop of a
  `bsp_delay_ms` that is still spinning after `fuel` ticks. -/
  | spinning (tr : List Effect)
deriving DecidableEq, Repr

/-- Sequencing of two pieces of code: the second runs only if the first returned. -/
def SendResult.andThen (r q : SendResult) : SendResult :=
  match r with
  | SendResult.returned tr =>
    match q with
    | SendResult.returned tq => SendResult.returned (tr ++ tq)
    | SendResult.spinning tq => SendResult.spinning (tr ++ tq)
  | SendResult.spinning tr => SendResult.spinning tr

/-- The trace of a call that returned; `none` for a call that does not return. -/
def SendResult.trace : SendResult → Option (List Effect)
  | SendResult.returned tr => some tr
  | SendResult.spinning _ => none

/-- A call `bsp_delay_ms(time)` entered when the counter reads `systick_count`: it returns
after the number of ticks that `BspSystick.bsp_delay_ms` computes, or is still spinning. -/
def delay_call (time systick_count fuel : Nat) : SendResult :=
  match BspSystick.bsp_delay_ms time systick_count fuel with
  | some ticks => SendResult.returned [Effect.delay_ms time ticks]
  | none => SendResult.spinning []

/-- Function `bsp_uart_send_data`: the first `switch`, the test of `uart`, the loop over
the bytes and the second `switch`.  For a `com` that names no channel the call spins in
`while(1);`; on `RS485_COM` each of the two `bsp_delay_ms(1)` runs the wait loop of
`bsp_systick.c` from the counter value in `clk` and the call goes on only if it returns. -/
def bsp_uart_send_data (com : Nat) (data : Nat → Nat) (len : Nat) (clk : TickReads) :
    SendResult :=
  let uart : Option USART_Module :=
    if com = DEBUG_COM then some DEBUG_UART
    else if com = HOST_COMPUTER_COM then some HOST_COMPUTER_UART
    else if com = RS485_COM then some RS485_UART
    else none
  let first : SendResult :=
    if com = DEBUG_COM then SendResult.returned []
    else if com = HOST_COMPUTER_COM then SendResult.returned []
    else if com = RS485_COM then
      (SendResult.returned [Effect.rs485_send_enable]).andThen
        (delay_call 1 clk.tick1 clk.fuel)
    else SendResult.returned []
  let rest : SendResult :=
    match uart with
    | none => SendResult.spinning []
    | some u =>
      let body := (List.range len).flatMap
        (fun i => [Effect.send_data u (data i), Effect.wait_txde u])
      let last : SendResult :=
        if com = DEBUG_COM then SendResult.returned []
        else if com = HOST_COMPUTER_COM then SendResult.returned []
        else if com = RS485_COM then
          (delay_call 1 clk.tick2 clk.fuel).andThen
            (SendResult.returned [Effect.rs485_recv_enable])
        else SendResult.returned []
      (SendResult.returned body).andThen last
  first.andThen rest

/-- The variables `rs485_recv_buf[1024]` and `findex` of `bsp_uart_cb.c`. -/
structure Rs485State where
  /-- Variable `static uint32_t findex`. -/
  findex : Nat
  /-- Variable `static uint8_t rs485_recv_buf[1024]`, as a map from the offset. -/
  rs485_recv_buf : Nat → Nat

/-- What the UART reports while one interrupt callback runs. -/
structure UartIrq where
  /-- Whether `USART_GetIntStatus(uart, USART_INT_RXDNE) != RESET`. -/
  rxdne : Bool
  /-- Whether `USART_GetIntStatus(uart, USART_INT_TXDE) != RESET`. -/
  txde : Bool
  /-- Whether `USART_GetIntStatus(uart, USART_INT_OREF) != RESET`. -/
  oref : Bool
  /-- Result of `USART_ReceiveData(uart)`. -/
  dat : Nat
deriving DecidableEq, Repr

/-- Function `bsp_uart_rs485_com_irq_cb`.  The received value is narrowed to `uint8_t`;
the TXDE branch is empty and the OREF branch only reads two registers.  The result is
`none` when the store `rs485_recv_buf[findex++] = data` would fall outside the 1024-byte
array, where C defines no behaviour. -/
def bsp_uart_rs485_com_irq_cb (irq : UartIrq) (s : Rs485State) : Option Rs485State :=
  if irq.rxdne then
    let data := irq.dat % 256
    if s.findex < 1024 then
      some { findex := (s.findex + 1) % 2 ^ 32,
             rs485_recv_buf := buf_set s.rs485_recv_buf s.findex data }
    else none
  else some s

/-- Function `bsp_uart_factory_rs485_check`: the new state and the actions performed, or
`none` when the call of `bsp_uart_send_data` does not return; `clk` is what the tick
counter shows to that call. -/
def bsp_uart_factory_rs485_check (clk : TickReads) (s : Rs485State) :
    Option (Rs485State × List Effect) :=
  if s.findex = 8 then
    (bsp_uart_send_data RS485_COM s.rs485_recv_buf 8 clk).trace.map
      (fun tr => ({ s with findex := 0 }, tr))
  else some (s, [])

/-- Successive receive interrupts on the RS-485 UART. -/
def rs485_recv : List UartIrq → Rs485State → Option Rs485State
  | [], s => some s
  | q :: qs, s => (bsp_uart_rs485_com_irq_cb q s).bind (rs485_recv qs)

/-- The bytes a trace sends on `uart`, in order. -/
def sent_on (uart : USART_Module) : List Effect → List Nat
  | [] => []
  | Effect.send_data u d :: tr => if u = uart then d :: sent_on uart tr else sent_on uart tr
  | _ :: tr => sent_on uart tr

/-- The register reads with which a callback clears the overrun flag of `uart`, when
`oref` says the flag is set: `(void)uart->STS; (void)uart->DAT;`. -/
def oref_clear (uart : USART_Module) (oref : Bool) : List Effect :=
  if oref then [Effect.read_sts uart, Effect.read_dat uart] else []

/-- Function `bsp_uart_host_computer_com_irq_cb`: the actions it performs.  The received
value is narrowed to `uint8_t` and handed to `bsp_uart_send_data` as a one-byte buffer;
the TXDE branch is empty.  `clk` is what the tick counter shows to `bsp_uart_send_data`. -/
def bsp_uart_host_computer_com_irq_cb (irq : UartIrq) (clk : TickReads) :
    Option (List Effect) :=
  let rx : Option (List Effect) :=
    if irq.rxdne then
      let data := irq.dat % 256
      (bsp_uart_send_data HOST_COMPUTER_COM (fun _ => data) 1 clk).trace
    else some []
  rx.map (fun tr => tr ++ oref_clear HOST_COMPUTER_UART irq.oref)

/-- The three receive callbacks of `bsp_uart_cb.c`, as values of the function pointer
`void (*)(void)`. -/
inductive IrqCb where
  /-- Address of `bsp_uart_debug_com_irq_cb`. -/
  | debug_com
  /-- Address of `bsp_uart_host_computer_com_irq_cb`. -/
  | host_computer_com
  /-- Address of `bsp_uart_rs485_com_irq_cb`. -/
  | rs485_com
deriving DecidableEq, Repr

/-- Structure `com_irq_cb_t` of `bsp_uart.h`; `none` is the null pointer. -/
structure com_irq_cb_t where
  /-- Field `void (*debug_com_cb)(void)`. -/
  debug_com_cb : Option IrqCb
  /-- Field `void (*host_computer_com_cb)(void)`. -/
  host_computer_com_cb : Option IrqCb
  /-- Field `void (*rs485_com_cb)(void)`. -/
  rs485_com_cb : Option IrqCb
deriving DecidableEq, Repr

/-- The initial value `com_irq_cb = {NULL, NULL, NULL}` of `bsp_uart.c`. -/
def com_irq_cb_init : com_irq_cb_t := ⟨none, none, none⟩

/-- How a call of `bsp_uart_init` ends, with the callback table at that point. -/
inductive InitResult where
  /-- The call returned. -/
  | returned (tbl : com_irq_cb_t)
  /-- The call spins in `while (1);` and never returns. -/
  | halted (tbl : com_irq_cb_t)
deriving DecidableEq, Repr

/-- Function `bsp_uart_init`, as it acts on the callback table `com_irq_cb`.  The calls
into the vendor library that set up clocks, pins, the USART and the NVIC write no
variable of the program and are taken to return.  Each of the three cases of the
`switch` stores the callback in `com_irq_cb.debug_com_cb`. -/
def bsp_uart_init (com : Nat) (baud : Nat) (irq_cb : Option IrqCb) (tbl : com_irq_cb_t) :
    InitResult :=
  match irq_cb with
  | none => InitResult.halted tbl
  | some cb =>
    if com = DEBUG_COM then InitResult.returned { tbl with debug_com_cb := some cb }
    else if com = HOST_COMPUTER_COM then InitResult.returned { tbl with debug_com_cb := some cb }
    else if com = RS485_COM then InitResult.returned { tbl with debug_com_cb := some cb }
    else InitResult.returned tbl

/-- Sequencing of two initialisation steps: the second runs only if the first returned. -/
def InitResult.andThen (r : InitResult) (f : com_irq_cb_t → InitResult) : InitResult :=
  match r with
  | InitResult.returned tbl => f tbl
  | InitResult.halted tbl => InitResult.halted tbl

/-- Three calls of `bsp_uart_init`, for the three channels in the order of `main`, with
the callbacks `cb_debug`, `cb_host` and `cb_rs485`. -/
def uart_init_all (cb_debug cb_host cb_rs485 : Option IrqCb) (tbl : com_irq_cb_t) :
    InitResult :=
  ((bsp_uart_init DEBUG_COM 115200 cb_debug tbl).andThen
    (bsp_uart_init HOST_COMPUTER_COM 115200 cb_host)).andThen
    (bsp_uart_init RS485_COM 115200 cb_rs485)

/-- The three calls of `bsp_uart_init` in `main`. -/
def main_uart_init : InitResult :=
  uart_init_all (some IrqCb.debug_com) (some IrqCb.host_computer_com) (some IrqCb.rs485_com)
    com_irq_cb_init

/-- Handler `USART3_IRQHandler` of `n32g43x_it.c`: the function it calls,
`com_irq_cb.rs485_com_cb`; `none` is a call through the null pointer. -/
def USART3_IRQHandler (tbl : com_irq_cb_t) : Option IrqCb := tbl.rs485_com_cb

/-- Handler `UART4_IRQHandler` of `n32g43x_it.c`: the function it calls,
`com_irq_cb.debug_com_cb`; `none` is a call through the null pointer. -/
def UART4_IRQHandler (tbl : com_irq_cb_t) : Option IrqCb := tbl.debug_com_cb

/-- Handler `UART5_IRQHandler` of `n32g43x_it.c`: the function it calls,
`com_irq_cb.host_computer_com_cb`; `none` is a call through the null pointer. -/
def UART5_IRQHandler (tbl : com_irq_cb_t) : Option IrqCb := tbl.host_computer_com_cb

/-- Every flag that is 0xFF in `f` is 0xFF in `g`. -/
def flags_kept (f g : factory_func_check_t) : Prop :=
  (f.can_sign = 0xFF → g.can_sign = 0xFF) ∧
  (f.rs485_sign = 0xFF → g.rs485_sign = 0xFF) ∧
  (f.pc_com_sign = 0xFF → g.pc_com_sign = 0xFF) ∧
  (f.current_sign = 0xFF → g.current_sign = 0xFF) ∧
  (f.voltage_sign = 0xFF → g.voltage_sign = 0xFF) ∧
  (f.overflow_sign = 0xFF → g.overflow_sign = 0xFF) ∧
  (f.temperatur_sign = 0xFF → g.temperatur_sign = 0xFF)

instance (f g : factory_func_check_t) : Decidable (flags_kept f g) := by
  unfold flags_kept
  infer_instance

/-- Whether an action switches the RS-485 direction or is a delay. -/
def Effect.is_turnaround : Effect → Bool
  | Effect.rs485_send_enable => true
  | Effect.rs485_recv_enable => true
  | Effect.delay_ms _ _ => true
  | _ => false

/-- Function `bsp_uart_debug_com_irq_cb`: the new state of the recogniser and the actions
performed.  The received value is narrowed to `uint8_t` and handed to
`bsp_uart_factory_cmd_analyse`; the call of `bsp_uart_send_data` is commented out in the
source and the TXDE branch is empty. -/
def bsp_uart_debug_com_irq_cb (irq : UartIrq) (s : CmdState) :
    Option (CmdState × List Effect) :=
  let rx : Option CmdState :=
    if irq.rxdne then
      let data := irq.dat % 256
      bsp_uart_factory_cmd_analyse data s
    else some s
  rx.map (fun t => (t, oref_clear DEBUG_UART irq.oref))

/-- The flag that the test of keyword `kw` sets. -/
def flag_of (kw : String) (f : factory_func_check_t) : Nat :=
  if kw = "CAN" then f.can_sign
  else if kw = "RS485" then f.rs485_sign
  else if kw = "PC_COM" then f.pc_com_sign
  else if kw = "CURRENT" then f.current_sign
  else if kw = "VOLTAGE" then f.voltage_sign
  else if kw = "OVERFLOW" then f.overflow_sign
  else f.temperatur_sign

/-- The number of flags in which `f` and `g` differ. -/
def flags_changed (f g : factory_func_check_t) : Nat :=
  (if f.can_sign = g.can_sign then 0 else 1) +
  (if f.rs485_sign = g.rs485_sign then 0 else 1) +
  (if f.pc_com_sign = g.pc_com_sign then 0 else 1) +
  (if f.current_sign = g.current_sign then 0 else 1) +
  (if f.voltage_sign = g.voltage_sign then 0 else 1) +
  (if f.overflow_sign = g.overflow_sign then 0 else 1) +
  (if f.temperatur_sign = g.temperatur_sign then 0 else 1)

end BspUart

/-! ## Theorems on the key scan -/

namespace BspKey

theorem u32_sub_le (a b : Nat) (h : b ≤ a) : u32_sub a b ≤ a - b := by
  unfold u32_sub; omega

theorem u32_sub_eq (a b : Nat) (h : b ≤ a) (ha : a < 2 ^ 32) : u32_sub a b = a - b := by
  unfold u32_sub; omega

theorem body_idle_up (r : KeyReads) (k : key_param_t) (h : k.trigger = NOT_ACTIVATION)
    (hv : r.val1 ≠ KEY_DOWN_VALUE) : bsp_key_scan_body r k = (k, []) := by
  simp [bsp_key_scan_body, scan_step1, scan_step2, scan_step3, h, hv]

theorem body_idle_down (r : KeyReads) (k : key_param_t) (h : k.trigger = NOT_ACTIVATION)
    (hv : r.val1 = KEY_DOWN_VALUE) :
    bsp_key_scan_body r k
      = bsp_key_scan_body r { k with trigger := FIRST_ACTIVATION, time := r.tick1 } := by
  simp [bsp_key_scan_body, scan_step1, h, hv]

theorem body_first_wait (r : KeyReads) (k : key_param_t) (h : k.trigger = FIRST_ACTIVATION)
    (he : u32_sub r.tick2 k.time ≤ FILTER_KEEP_TIME) : bsp_key_scan_body r k = (k, []) := by
  have he2 : ¬ (10 < u32_sub r.tick2 k.time) := Nat.not_lt.mpr he
  simp [bsp_key_scan_body, scan_step1, scan_step2, scan_step3, h, he2]

theorem body_first_down (r : KeyReads) (k : key_param_t) (h : k.trigger = FIRST_ACTIVATION)
    (he : FILTER_KEEP_TIME < u32_sub r.tick2 k.time) (hv : r.val2 = KEY_DOWN_VALUE) :
    bsp_key_scan_body r k
      = ({ k with down_sign := KEY_DOWN_VALUE, trigger := REAL_ACTIVATION }, bsp_key_print k) := by
  have he2 : 10 < u32_sub r.tick2 k.time := he
  simp [bsp_key_scan_body, scan_step1, scan_step2, scan_step3, h, he2, hv, bsp_key_print]

theorem body_first_notdown (r : KeyReads) (k : key_param_t) (h : k.trigger = FIRST_ACTIVATION)
    (he : FILTER_KEEP_TIME < u32_sub r.tick2 k.time) (hv : r.val2 ≠ KEY_DOWN_VALUE) :
    bsp_key_scan_body r k = (scan_step3 { k with trigger := REAL_ACTIVATION } r.val2, []) := by
  have he2 : 10 < u32_sub r.tick2 k.time := he
  simp [bsp_key_scan_body, scan_step1, scan_step2, h, he2, hv]

theorem body_real (r : KeyReads) (k : key_param_t) (h : k.trigger = REAL_ACTIVATION) :
    bsp_key_scan_body r k = (scan_step3 k r.val1, []) := by
  simp [bsp_key_scan_body, scan_step1, scan_step2, h]

/-- The loop body never changes the key number. -/
theorem body_num (r : KeyReads) (k : key_param_t) : (bsp_key_scan_body r k).1.num = k.num := by
  simp only [bsp_key_scan_body, scan_step1, scan_step2, scan_step3]
  split_ifs <;> rfl

/-- The loop body prints nothing or the line of its key. -/
theorem body_out (r : KeyReads) (k : key_param_t) :
    (bsp_key_scan_body r k).2 = [] ∨ (bsp_key_scan_body r k).2 = bsp_key_print k := by
  simp only [bsp_key_scan_body, scan_step1, scan_step2, scan_step3]
  split_ifs <;> simp [bsp_key_print]

theorem key_run_num (rs : List KeyReads) (k : key_param_t) : (key_run rs k).1.num = k.num := by
  induction rs generalizing k with
  | nil => rfl
  | cons r rs ih => simp [key_run, ih, body_num]

theorem key_run_out (rs : List KeyReads) (k : key_param_t) :
    ∀ m ∈ (key_run rs k).2, m ∈ bsp_key_print k := by
  induction rs generalizing k with
  | nil => simp [key_run]
  | cons r rs ih =>
    intro m hm
    simp only [key_run, List.mem_append] at hm
    rcases hm with hm | hm
    · rcases body_out r k with h | h
      · rw [h] at hm; simp at hm
      · rw [h] at hm; exact hm
    · have := ih _ m hm
      have hn : bsp_key_print (bsp_key_scan_body r k).1 = bsp_key_print k := by
        simp [bsp_key_print, body_num]
      rwa [hn] at this

/-- One call of `bsp_key_scan` acts on each configured key as the loop body. -/
theorem scan_fst (reads : Nat → KeyReads) (ks : Nat → key_param_t) (i : Nat) (hi : i < KEY_MAX) :
    (bsp_key_scan reads ks).1 i = (bsp_key_scan_body (reads i) (ks i)).1 := by
  have h2 : List.range KEY_MAX = [0, 1] := rfl
  have hi2 : i = 0 ∨ i = 1 := by
    have : i < 2 := hi
    omega
  rcases hi2 with rfl | rfl <;> simp [bsp_key_scan, h2, Function.update]

/-- The lines printed by one call of `bsp_key_scan`: those of key 0, then those of key 1. -/
theorem scan_snd (reads : Nat → KeyReads) (ks : Nat → key_param_t) :
    (bsp_key_scan reads ks).2
      = (bsp_key_scan_body (reads 0) (ks 0)).2 ++ (bsp_key_scan_body (reads 1) (ks 1)).2 := by
  have h2 : List.range KEY_MAX = [0, 1] := rfl
  simp [bsp_key_scan, h2, Function.update]

theorem seq_fst (rs : List (Nat → KeyReads)) (ks : Nat → key_param_t) (i : Nat)
    (hi : i < KEY_MAX) :
    (bsp_key_scan_seq rs ks).1 i = (key_run (rs.map (fun r => r i)) (ks i)).1 := by
  induction rs generalizing ks with
  | nil => rfl
  | cons r rs ih => simp [bsp_key_scan_seq, key_run, ih, scan_fst _ _ i hi]

theorem seq_count (rs : List (Nat → KeyReads)) (ks : Nat → key_param_t) (m : String) :
    (bsp_key_scan_seq rs ks).2.count m
      = (key_run (rs.map (fun r => r 0)) (ks 0)).2.count m
        + (key_run (rs.map (fun r => r 1)) (ks 1)).2.count m := by
  induction rs generalizing ks with
  | nil => rfl
  | cons r rs ih =>
    have h0 : (0 : Nat) < KEY_MAX := by decide
    have h1 : (1 : Nat) < KEY_MAX := by decide
    simp only [bsp_key_scan_seq, key_run, List.map_cons, List.count_append, ih, scan_snd,
      scan_fst _ _ 0 h0, scan_fst _ _ 1 h1]
    ac_rfl

/-- In a table whose entries carry their own index as key number, the line of key `i`
is printed only by the iterations of key `i`. -/
theorem seq_count_own (rs : List (Nat → KeyReads)) (ks : Nat → key_param_t)
    (hwf : ∀ j, j < KEY_MAX → (ks j).num = j) (i : Nat) (hi : i < KEY_MAX) (m : String)
    (hm : m ∈ bsp_key_print (ks i)) :
    (bsp_key_scan_seq rs ks).2.count m = (key_run (rs.map (fun r => r i)) (ks i)).2.count m := by
  have h0 := hwf 0 (by decide)
  have h1 := hwf 1 (by decide)
  have hi2 : i = 0 ∨ i = 1 := by
    have : i < 2 := hi
    omega
  rw [seq_count]
  rcases hi2 with rfl | rfl
  · have hz : (key_run (rs.map (fun r => r 1)) (ks 1)).2.count m = 0 := by
      apply List.count_eq_zero_of_not_mem
      intro hc
      have := key_run_out _ _ m hc
      simp [bsp_key_print, h0, h1] at this hm
      rw [this] at hm
      exact absurd hm (by decide)
    rw [hz, Nat.add_zero]
  · have hz : (key_run (rs.map (fun r => r 0)) (ks 0)).2.count m = 0 := by
      apply List.count_eq_zero_of_not_mem
      intro hc
      have := key_run_out _ _ m hc
      simp [bsp_key_print, h0, h1] at this hm
      rw [this] at hm
      exact absurd hm (by decide)
    rw [hz, Nat.zero_add]

/-! ### Runs of one key -/

theorem key_run_idle_up (rs : List KeyReads) (k : key_param_t) (h : k.trigger = NOT_ACTIVATION)
    (hv : ∀ r ∈ rs, r.val1 = KEY_UP_VALUE) : key_run rs k = (k, []) := by
  induction rs with
  | nil => rfl
  | cons r rs ih =>
    have h1 : r.val1 ≠ KEY_DOWN_VALUE := by
      rw [hv r (List.mem_cons_self _ _)]; decide
    have ih2 := ih (fun q hq => hv q (List.mem_cons_of_mem _ hq))
    simp [key_run, body_idle_up r k h h1, ih2]

theorem key_run_real_down (rs : List KeyReads) (k : key_param_t) (h : k.trigger = REAL_ACTIVATION)
    (hv : ∀ r ∈ rs, r.val1 = KEY_DOWN_VALUE) : key_run rs k = (k, []) := by
  induction rs with
  | nil => rfl
  | cons r rs ih =>
    have h1 : r.val1 = KEY_DOWN_VALUE := hv r (List.mem_cons_self _ _)
    have ih2 := ih (fun q hq => hv q (List.mem_cons_of_mem _ hq))
    have hb : bsp_key_scan_body r k = (k, []) := by
      rw [body_real r k h]; simp [scan_step3, h1]
    simp [key_run, hb, ih2]

theorem key_run_first_wait (rs : List KeyReads) (k : key_param_t)
    (h : k.trigger = FIRST_ACTIVATION)
    (he : ∀ r ∈ rs, u32_sub r.tick2 k.time ≤ FILTER_KEEP_TIME) : key_run rs k = (k, []) := by
  induction rs with
  | nil => rfl
  | cons r rs ih =>
    have ih2 := ih (fun q hq => he q (List.mem_cons_of_mem _ hq))
    simp [key_run, body_first_wait r k h (he r (List.mem_cons_self _ _)), ih2]

/-- A pending key that reads DOWN at every sample is confirmed exactly once, by the first
iteration that finds the window over. -/
theorem key_run_first_down (rs : List KeyReads) (k : key_param_t)
    (h : k.trigger = FIRST_ACTIVATION)
    (hv : ∀ r ∈ rs, r.val1 = KEY_DOWN_VALUE ∧ r.val2 = KEY_DOWN_VALUE)
    (he : ∃ r ∈ rs, FILTER_KEEP_TIME < u32_sub r.tick2 k.time) :
    key_run rs k
      = ({ k with down_sign := KEY_DOWN_VALUE, trigger := REAL_ACTIVATION }, bsp_key_print k) := by
  induction rs with
  | nil => simp at he
  | cons r rs ih =>
    have hv2 : ∀ q ∈ rs, q.val1 = KEY_DOWN_VALUE ∧ q.val2 = KEY_DOWN_VALUE :=
      fun q hq => hv q (List.mem_cons_of_mem _ hq)
    by_cases hr : FILTER_KEEP_TIME < u32_sub r.tick2 k.time
    · have hb := body_first_down r k h hr (hv r (List.mem_cons_self _ _)).2
      have hrest := key_run_real_down rs
        { k with down_sign := KEY_DOWN_VALUE, trigger := REAL_ACTIVATION } rfl
        (fun q hq => (hv2 q hq).1)
      simp [key_run, hb, hrest]
    · have hb := body_first_wait r k h (Nat.not_lt.mp hr)
      have he2 : ∃ q ∈ rs, FILTER_KEEP_TIME < u32_sub q.tick2 k.time := by
        obtain ⟨q, hq, hq2⟩ := he
        rcases List.mem_cons.mp hq with rfl | hq
        · exact absurd hq2 hr
        · exact ⟨q, hq, hq2⟩
      simp [key_run, hb, ih hv2 he2]

/-- An idle key whose first iteration reads DOWN runs as a key that is already pending
with the tick of that iteration as its timestamp. -/
theorem key_run_idle_down (r : KeyReads) (rs : List KeyReads) (k : key_param_t)
    (h : k.trigger = NOT_ACTIVATION) (hv : r.val1 = KEY_DOWN_VALUE) :
    key_run (r :: rs) k
      = key_run (r :: rs) { k with trigger := FIRST_ACTIVATION, time := r.tick1 } := by
  simp [key_run, body_idle_down r k h hv]

theorem step3_short (a : Nat) (later : List Nat) (k : key_param_t) (v : Nat)
    (h : k.trigger = REAL_ACTIVATION) :
    (scan_step3 k v).down_sign = k.down_sign ∧ short_inv a later (scan_step3 k v) := by
  unfold scan_step3 short_inv
  split_ifs
  · exact ⟨rfl, Or.inl rfl⟩
  · exact ⟨rfl, Or.inr (Or.inl h)⟩

theorem body_short_first (a b : Nat) (hspan : b < a + FILTER_KEEP_TIME) (r : KeyReads)
    (later : List Nat) (k : key_param_t) (h : k.trigger = FIRST_ACTIVATION)
    (ha : a ≤ k.time) (h2 : k.time ≤ r.tick2) (hl : ∀ t ∈ later, k.time ≤ t)
    (hd : r.val2 = KEY_DOWN_VALUE → r.tick2 ≤ b) :
    (bsp_key_scan_body r k).1.down_sign = k.down_sign ∧ (bsp_key_scan_body r k).2 = [] ∧
      short_inv a later (bsp_key_scan_body r k).1 := by
  by_cases he : u32_sub r.tick2 k.time ≤ FILTER_KEEP_TIME
  · rw [body_first_wait r k h he]
    exact ⟨rfl, rfl, Or.inr (Or.inr ⟨h, ha, hl⟩)⟩
  · have he2 : FILTER_KEEP_TIME < u32_sub r.tick2 k.time := Nat.not_le.mp he
    have hv : r.val2 ≠ KEY_DOWN_VALUE := by
      intro hv
      have h3 := hd hv
      have h4 := u32_sub_le r.tick2 k.time h2
      have h5 : 10 < u32_sub r.tick2 k.time := he2
      have h6 : b < a + 10 := hspan
      omega
    rw [body_first_notdown r k h he2 hv]
    have := step3_short a later { k with trigger := REAL_ACTIVATION } r.val2 rfl
    exact ⟨this.1, rfl, this.2⟩

theorem body_short (a b : Nat) (hspan : b < a + FILTER_KEEP_TIME) (r : KeyReads)
    (later : List Nat) (k : key_param_t)
    (hinv : short_inv a (r.tick1 :: r.tick2 :: later) k)
    (h12 : r.tick1 ≤ r.tick2) (h1l : ∀ t ∈ later, r.tick1 ≤ t)
    (hd1 : r.val1 = KEY_DOWN_VALUE → a ≤ r.tick1)
    (hd2 : r.val2 = KEY_DOWN_VALUE → r.tick2 ≤ b) :
    (bsp_key_scan_body r k).1.down_sign = k.down_sign ∧ (bsp_key_scan_body r k).2 = [] ∧
      short_inv a later (bsp_key_scan_body r k).1 := by
  rcases hinv with h | h | ⟨h, ha, hl⟩
  · by_cases hv : r.val1 = KEY_DOWN_VALUE
    · rw [body_idle_down r k h hv]
      exact body_short_first a b hspan r later _ rfl (hd1 hv) h12 h1l hd2
    · rw [body_idle_up r k h hv]
      exact ⟨rfl, rfl, Or.inl h⟩
  · rw [body_real r k h]
    have := step3_short a later k r.val1 h
    exact ⟨this.1, rfl, this.2⟩
  · exact body_short_first a b hspan r later k h ha
      (hl _ (List.mem_cons_of_mem _ (List.mem_cons_self _ _)))
      (fun t ht => hl t (List.mem_cons_of_mem _ (List.mem_cons_of_mem _ ht))) hd2

/-- A key that is DOWN only inside a span shorter than the window is never confirmed. -/
theorem key_run_short (a b : Nat) (hspan : b < a + FILTER_KEEP_TIME) (rs : List KeyReads)
    (k : key_param_t) (hmono : (key_ticks rs).Pairwise (· ≤ ·))
    (hd : ∀ r ∈ rs, (r.val1 = KEY_DOWN_VALUE → a ≤ r.tick1) ∧
      (r.val2 = KEY_DOWN_VALUE → r.tick2 ≤ b))
    (hinv : short_inv a (key_ticks rs) k) :
    (key_run rs k).1.down_sign = k.down_sign ∧ (key_run rs k).2 = [] := by
  induction rs generalizing k with
  | nil => exact ⟨rfl, rfl⟩
  | cons r rs ih =>
    simp only [key_ticks, List.pairwise_cons, List.mem_cons, forall_eq_or_imp] at hmono
    obtain ⟨⟨h12, h1l⟩, ⟨h2l, hrest⟩⟩ := hmono
    have hr := hd r (List.mem_cons_self _ _)
    have hb := body_short a b hspan r (key_ticks rs) k hinv h12 h1l hr.1 hr.2
    have ih2 := ih _ hrest (fun q hq => hd q (List.mem_cons_of_mem _ hq)) hb.2.2
    simp only [key_run]
    exact ⟨by rw [ih2.1, hb.1], by rw [hb.2.1, ih2.2]; rfl⟩

/-! ### Claims on the key scan -/

/-- C1 (as stated, refuted): key 0 of the initial table is idle, reads DOWN at every sample of
two scans taken at ticks 0 and 10, a non-decreasing tick sequence that covers 10 ticks
since the first scan; yet the latch is not set and nothing is printed. -/
theorem held_ten_ticks_no_press :
    (key_scan_init 0).trigger = NOT_ACTIVATION ∧
    (∀ r ∈ [reads_at 1 0, reads_at 1 10],
      (r 0).val1 = KEY_DOWN_VALUE ∧ (r 0).val2 = KEY_DOWN_VALUE) ∧
    (ticks_of 0 [reads_at 1 0, reads_at 1 10]).Pairwise (· ≤ ·) ∧
    (∃ r ∈ [reads_at 1 0, reads_at 1 10],
      (reads_at 1 0 0).tick1 + FILTER_KEEP_TIME ≤ (r 0).tick2) ∧
    ((bsp_key_scan_seq [reads_at 1 0, reads_at 1 10] key_scan_init).1 0).down_sign = 0 ∧
    (bsp_key_scan_seq [reads_at 1 0, reads_at 1 10] key_scan_init).2 = [] := by
  decide

/-- C1 (amended): in a table whose entries carry their index as key number (as `key_scan[]`
does), for every configured key that starts Idle and reads DOWN at every sample of every
scan, over any sequence of scans with a non-decreasing tick in which some scan reads a
tick MORE than 10 ticks after the tick recorded by the first scan, exactly one press is
registered: the latch `down_sign` is set, the key is Confirmed, and the line of the key
occurs exactly once in the log; any further scans `more` in which the key stays DOWN leave
the latch set and the line count at one. -/
theorem held_key_registers_one_press (ks : Nat → key_param_t)
    (hwf : ∀ j, j < KEY_MAX → (ks j).num = j) (i : Nat) (hi : i < KEY_MAX)
    (r0 : Nat → KeyReads) (rs more : List (Nat → KeyReads))
    (hidle : (ks i).trigger = NOT_ACTIVATION)
    (hdown : ∀ r ∈ r0 :: (rs ++ more),
      (r i).val1 = KEY_DOWN_VALUE ∧ (r i).val2 = KEY_DOWN_VALUE)
    (hmono : (ticks_of i (r0 :: (rs ++ more))).Pairwise (· ≤ ·))
    (hu32 : ∀ t ∈ ticks_of i (r0 :: (rs ++ more)), t < 2 ^ 32)
    (hcover : ∃ r ∈ r0 :: rs, (r0 i).tick1 + FILTER_KEEP_TIME < (r i).tick2) :
    ∃ m, bsp_key_print (ks i) = [m] ∧
      ((bsp_key_scan_seq (r0 :: rs) ks).1 i).down_sign = KEY_DOWN_VALUE ∧
      ((bsp_key_scan_seq (r0 :: rs) ks).1 i).trigger = REAL_ACTIVATION ∧
      (bsp_key_scan_seq (r0 :: rs) ks).2.count m = 1 ∧
      ((bsp_key_scan_seq (r0 :: (rs ++ more)) ks).1 i).down_sign = KEY_DOWN_VALUE ∧
      (bsp_key_scan_seq (r0 :: (rs ++ more)) ks).2.count m = 1 := by
  -- the line of key `i`
  have hprint : ∃ m, bsp_key_print (ks i) = [m] := by
    have h0 := hwf 0 (by decide)
    have h1 := hwf 1 (by decide)
    have hi2 : i = 0 ∨ i = 1 := by
      have : i < 2 := hi
      omega
    rcases hi2 with rfl | rfl
    · exact ⟨"Start/Stop Key Down\r\n", by simp [bsp_key_print, h0]⟩
    · exact ⟨"CW/CCW Key Down\r\n", by simp [bsp_key_print, h1]⟩
  obtain ⟨m, hm⟩ := hprint
  have hmem : m ∈ bsp_key_print (ks i) := by rw [hm]; exact List.mem_singleton_self m
  -- every run that contains the covering scan confirms the key exactly once
  have key : ∀ tail : List (Nat → KeyReads),
      (∀ r ∈ r0 :: tail, (r i).val1 = KEY_DOWN_VALUE ∧ (r i).val2 = KEY_DOWN_VALUE) →
      (∀ t ∈ ticks_of i (r0 :: tail), t < 2 ^ 32) →
      (∃ r ∈ r0 :: tail, (r0 i).tick1 + FILTER_KEEP_TIME < (r i).tick2) →
      key_run ((r0 :: tail).map (fun r => r i)) (ks i)
        = ({ ks i with trigger := REAL_ACTIVATION, time := (r0 i).tick1,
                       down_sign := KEY_DOWN_VALUE }, [m]) := by
    intro tail hd hb hc
    have hd0 := hd r0 (List.mem_cons_self _ _)
    have hmap : (r0 :: tail).map (fun r => r i) = r0 i :: tail.map (fun r => r i) := rfl
    rw [hmap, key_run_idle_down (r0 i) _ (ks i) hidle hd0.1]
    have hrun := key_run_first_down (r0 i :: tail.map (fun r => r i))
      { ks i with trigger := FIRST_ACTIVATION, time := (r0 i).tick1 } rfl
      (by
        intro q hq
        rw [← hmap] at hq
        obtain ⟨r, hr, rfl⟩ := List.mem_map.mp hq
        exact hd r hr)
      (by
        obtain ⟨r, hr, hlt⟩ := hc
        refine ⟨r i, by rw [← hmap]; exact List.mem_map.mpr ⟨r, hr, rfl⟩, ?_⟩
        have hlt2 : (r0 i).tick1 + 10 < (r i).tick2 := hlt
        have hbr : (r i).tick2 < 2 ^ 32 := by
          apply hb
          rcases List.mem_cons.mp hr with rfl | hr2
          · simp [ticks_of, key_ticks]
          · have : ∀ (l : List (Nat → KeyReads)), r ∈ l → (r i).tick2 ∈ ticks_of i l := by
              intro l
              induction l with
              | nil => intro h; simp at h
              | cons x xs ihx =>
                intro h
                rcases List.mem_cons.mp h with rfl | h
                · simp [ticks_of, key_ticks]
                · have := ihx h
                  simp only [ticks_of, List.map_cons, key_ticks, List.mem_cons] at this ⊢
                  exact Or.inr (Or.inr this)
            have := this tail hr2
            simp only [ticks_of, List.map_cons, key_ticks, List.mem_cons] at this ⊢
            exact Or.inr (Or.inr this)
        have := u32_sub_eq (r i).tick2 (r0 i).tick1 (by omega) hbr
        show 10 < u32_sub (r i).tick2 (r0 i).tick1
        omega)
    rw [hrun]
    simp [bsp_key_print] at hm ⊢
    exact hm
  have hA := key rs
    (fun r hr => hdown r (by
      rcases List.mem_cons.mp hr with rfl | h
      · exact List.mem_cons_self _ _
      · exact List.mem_cons_of_mem _ (List.mem_append_left _ h)))
    (fun t ht => hu32 t (by
      simp only [ticks_of, List.map_cons, key_ticks, List.mem_cons, List.map_append] at ht ⊢
      rcases ht with h | h | h
      · exact Or.inl h
      · exact Or.inr (Or.inl h)
      · refine Or.inr (Or.inr ?_)
        have : ∀ (l1 l2 : List KeyReads), t ∈ key_ticks l1 → t ∈ key_ticks (l1 ++ l2) := by
          intro l1 l2
          induction l1 with
          | nil => intro h; simp [key_ticks] at h
          | cons x xs ihx =>
            intro h
            simp only [key_ticks, List.cons_append, List.mem_cons] at h ⊢
            rcases h with h | h | h
            · exact Or.inl h
            · exact Or.inr (Or.inl h)
            · exact Or.inr (Or.inr (ihx h))
        exact this _ _ h))
    hcover
  have hB := key (rs ++ more) hdown hu32 (by
    obtain ⟨r, hr, hlt⟩ := hcover
    refine ⟨r, ?_, hlt⟩
    rcases List.mem_cons.mp hr with rfl | h
    · exact List.mem_cons_self _ _
    · exact List.mem_cons_of_mem _ (List.mem_append_left _ h))
  refine ⟨m, hm, ?_, ?_, ?_, ?_, ?_⟩
  · rw [seq_fst _ _ i hi, hA]
  · rw [seq_fst _ _ i hi, hA]
  · rw [seq_count_own _ ks hwf i hi m hmem, hA]; simp
  · rw [seq_fst _ _ i hi, hB]
  · rw [seq_count_own _ ks hwf i hi m hmem, hB]; simp

/-- Witness of C1 (amended): key 0 of the initial table held DOWN over scans at ticks 0, 11
and then 12. -/
theorem held_key_registers_one_press_witness :
    ∃ m, bsp_key_print (key_scan_init 0) = [m] ∧
      ((bsp_key_scan_seq (reads_at 1 0 :: [reads_at 1 11]) key_scan_init).1 0).down_sign
        = KEY_DOWN_VALUE ∧
      ((bsp_key_scan_seq (reads_at 1 0 :: [reads_at 1 11]) key_scan_init).1 0).trigger
        = REAL_ACTIVATION ∧
      (bsp_key_scan_seq (reads_at 1 0 :: [reads_at 1 11]) key_scan_init).2.count m = 1 ∧
      ((bsp_key_scan_seq (reads_at 1 0 :: ([reads_at 1 11] ++ [reads_at 1 12]))
        key_scan_init).1 0).down_sign = KEY_DOWN_VALUE ∧
      (bsp_key_scan_seq (reads_at 1 0 :: ([reads_at 1 11] ++ [reads_at 1 12]))
        key_scan_init).2.count m = 1 :=
  held_key_registers_one_press key_scan_init (by decide) 0 (by decide)
    (reads_at 1 0) [reads_at 1 11] [reads_at 1 12] (by decide) (by decide) (by decide)
    (by decide) (by decide)

/-- No scan changes the press counter of any key. -/
theorem scan_keeps_counter (reads : Nat → KeyReads) (ks : Nat → key_param_t) (i : Nat) :
    ((bsp_key_scan reads ks).1 i).key_down_cnt = (ks i).key_down_cnt := by
  have hb : ∀ (r : KeyReads) (k : key_param_t),
      (bsp_key_scan_body r k).1.key_down_cnt = k.key_down_cnt := by
    intro r k
    simp only [bsp_key_scan_body, scan_step1, scan_step2, scan_step3]
    split_ifs <;> rfl
  by_cases hi : i < KEY_MAX
  · rw [scan_fst _ _ i hi, hb]
  · have h2 : List.range KEY_MAX = [0, 1] := rfl
    have h0 : i ≠ 0 := by
      intro h; exact hi (by rw [h]; decide)
    have h1 : i ≠ 1 := by
      intro h; exact hi (by rw [h]; decide)
    simp [bsp_key_scan, h2, Function.update, h0, h1]

/-- C2 (code defect): key 0 of the initial table, held DOWN over scans at ticks 0 and 11, is
confirmed by the second scan (latch set, trigger Confirmed, its line printed), and its
press counter `key_down_cnt` is still 0. -/
theorem confirmed_press_counter_stays_zero :
    ((bsp_key_scan_seq [reads_at 1 0, reads_at 1 11] key_scan_init).1 0).down_sign
      = KEY_DOWN_VALUE ∧
    ((bsp_key_scan_seq [reads_at 1 0, reads_at 1 11] key_scan_init).1 0).trigger
      = REAL_ACTIVATION ∧
    (bsp_key_scan_seq [reads_at 1 0, reads_at 1 11] key_scan_init).2.count
      "Start/Stop Key Down\r\n" = 1 ∧
    ((bsp_key_scan_seq [reads_at 1 0, reads_at 1 11] key_scan_init).1 0).key_down_cnt = 0 := by
  decide

/-- C3: in a table whose entries carry their index as key number (as `key_scan[]` does),
for every configured key that starts Idle, if every sample that reads DOWN is taken
at a tick of a span `[a, b]` shorter than 10 ticks (`b < a + 10`), so that every later
sample reads UP, then over any sequence of scans with a non-decreasing tick no press is
registered: the latch `down_sign` keeps its value and the line of the key is never
printed. -/
theorem short_press_never_registers (ks : Nat → key_param_t)
    (hwf : ∀ j, j < KEY_MAX → (ks j).num = j) (i : Nat) (hi : i < KEY_MAX)
    (rs : List (Nat → KeyReads)) (a b : Nat)
    (hidle : (ks i).trigger = NOT_ACTIVATION)
    (hmono : (ticks_of i rs).Pairwise (· ≤ ·))
    (hspan : b < a + FILTER_KEEP_TIME)
    (hdown : ∀ r ∈ rs,
      ((r i).val1 = KEY_DOWN_VALUE → a ≤ (r i).tick1 ∧ (r i).tick1 ≤ b) ∧
      ((r i).val2 = KEY_DOWN_VALUE → a ≤ (r i).tick2 ∧ (r i).tick2 ≤ b)) :
    ((bsp_key_scan_seq rs ks).1 i).down_sign = (ks i).down_sign ∧
      ∀ m ∈ bsp_key_print (ks i), (bsp_key_scan_seq rs ks).2.count m = 0 := by
  have hrun := key_run_short a b hspan (List.map (fun r : Nat → KeyReads => r i) rs) (ks i)
    hmono
    (by
      intro q hq
      obtain ⟨r, hr, rfl⟩ := List.mem_map.mp hq
      exact ⟨fun h => ((hdown r hr).1 h).1, fun h => ((hdown r hr).2 h).2⟩)
    (Or.inl hidle)
  refine ⟨by rw [seq_fst _ _ i hi, hrun.1], ?_⟩
  intro m hm
  rw [seq_count_own _ ks hwf i hi m hm, hrun.2]
  rfl

/-- Witness of C3: key 0 of the initial table reads DOWN at ticks 3 and 8 and UP at ticks 13
and 20. -/
theorem short_press_never_registers_witness :
    ((bsp_key_scan_seq [reads_at 1 3, reads_at 1 8, reads_at 0 13, reads_at 0 20]
      key_scan_init).1 0).down_sign = (key_scan_init 0).down_sign ∧
    ∀ m ∈ bsp_key_print (key_scan_init 0),
      (bsp_key_scan_seq [reads_at 1 3, reads_at 1 8, reads_at 0 13, reads_at 0 20]
        key_scan_init).2.count m = 0 :=
  short_press_never_registers key_scan_init (by decide) 0 (by decide)
    [reads_at 1 3, reads_at 1 8, reads_at 0 13, reads_at 0 20] 3 8 (by decide) (by decide)
    (by decide) (by decide)

/-- C4: for every number of scans and every tick sequence, scanning a configured key that is
Idle and reads UP in STEP1 of every scan (the only sample such a scan takes) leaves its
entry of the table as it was: trigger Idle, press counter, latch and timestamp
unchanged. -/
theorem idle_released_scan_is_identity (ks : Nat → key_param_t) (i : Nat) (hi : i < KEY_MAX)
    (rs : List (Nat → KeyReads))
    (hidle : (ks i).trigger = NOT_ACTIVATION)
    (hup : ∀ r ∈ rs, (r i).val1 = KEY_UP_VALUE) :
    (bsp_key_scan_seq rs ks).1 i = ks i := by
  rw [seq_fst _ _ i hi, key_run_idle_up _ (ks i) hidle]
  intro q hq
  obtain ⟨r, hr, rfl⟩ := List.mem_map.mp hq
  exact hup r hr

/-- Witness of C4: 1000 scans, at ticks 0 to 999, of key 0 of the initial table read UP. -/
theorem idle_released_scan_is_identity_witness :
    (bsp_key_scan_seq ((List.range 1000).map (fun t => reads_at 0 t)) key_scan_init).1 0
      = key_scan_init 0 :=
  idle_released_scan_is_identity key_scan_init 0 (by decide)
    ((List.range 1000).map (fun t => reads_at 0 t)) rfl
    (by
      intro r hr
      obtain ⟨t, _, rfl⟩ := List.mem_map.mp hr
      rfl)

/-! ### Claims on the single transitions of a key -/

/-- In a table whose entries carry their own index as key number, one scan prints the
line of key `i` as often as the iteration of key `i` does. -/
theorem scan_count_own (reads : Nat → KeyReads) (ks : Nat → key_param_t)
    (hwf : ∀ j, j < KEY_MAX → (ks j).num = j) (i : Nat) (hi : i < KEY_MAX) (m : String)
    (hm : m ∈ bsp_key_print (ks i)) :
    (bsp_key_scan reads ks).2.count m = (bsp_key_scan_body (reads i) (ks i)).2.count m := by
  have h := seq_count_own [reads] ks hwf i hi m hm
  simpa [bsp_key_scan_seq, key_run] using h

/-- STEP3 on a key whose trigger is Confirmed: a raised key goes back to Idle. -/
theorem step3_real (k : key_param_t) (v : Nat) (h : k.trigger = REAL_ACTIVATION) :
    scan_step3 k v = if v = KEY_UP_VALUE then { k with trigger := NOT_ACTIVATION } else k := by
  simp [scan_step3, h]

/-- The iteration of a pending key: nothing happens while the elapsed time is at most
`FILTER_KEEP_TIME`; beyond it the re-read level decides. -/
theorem body_first (r : KeyReads) (k : key_param_t) (h : k.trigger = FIRST_ACTIVATION) :
    bsp_key_scan_body r k =
      if u32_sub r.tick2 k.time ≤ FILTER_KEEP_TIME then (k, [])
      else if r.val2 = KEY_DOWN_VALUE then
        ({ k with down_sign := KEY_DOWN_VALUE, trigger := REAL_ACTIVATION }, bsp_key_print k)
      else (scan_step3 { k with trigger := REAL_ACTIVATION } r.val2, []) := by
  by_cases he : u32_sub r.tick2 k.time ≤ FILTER_KEEP_TIME
  · rw [if_pos he, body_first_wait r k h he]
  · rw [if_neg he]
    have he2 : FILTER_KEEP_TIME < u32_sub r.tick2 k.time := Nat.not_le.mp he
    by_cases hv : r.val2 = KEY_DOWN_VALUE
    · rw [if_pos hv, body_first_down r k h he2 hv]
    · rw [if_neg hv, body_first_notdown r k h he2 hv]

/-- C17 (as stated, refuted): key 0 of the initial table is Idle and reads DOWN in a scan
whose two reads of the tick counter differ: 100 in STEP1, where the tick is recorded, and
111 in STEP2 of the same iteration, 11 ticks later.  The scan does not leave the key in
PendingConfirm: it confirms the press at once, sets the latch and prints the line of the
key. -/
theorem idle_down_confirmed_in_same_scan :
    (key_scan_init 0).trigger = NOT_ACTIVATION ∧
    ((bsp_key_scan (fun i => if i = 0 then ⟨1, 100, 111, 1⟩ else ⟨0, 100, 111, 0⟩)
        key_scan_init).1 0).trigger = REAL_ACTIVATION ∧
    ((bsp_key_scan (fun i => if i = 0 then ⟨1, 100, 111, 1⟩ else ⟨0, 100, 111, 0⟩)
        key_scan_init).1 0).trigger ≠ FIRST_ACTIVATION ∧
    ((bsp_key_scan (fun i => if i = 0 then ⟨1, 100, 111, 1⟩ else ⟨0, 100, 111, 0⟩)
        key_scan_init).1 0).down_sign = KEY_DOWN_VALUE ∧
    (bsp_key_scan (fun i => if i = 0 then ⟨1, 100, 111, 1⟩ else ⟨0, 100, 111, 0⟩)
        key_scan_init).2 = ["Start/Stop Key Down\r\n"] := by
  decide

/-- C17 (amended): in a table whose entries carry their index as key number, for every
configured key that is Idle, a scan in which the key reads DOWN in STEP1 and in which the
tick read by STEP2 is at most `FILTER_KEEP_TIME` ticks (modulo `2 ^ 32`) after the tick
read by STEP1 leaves the key in PendingConfirm with the tick of STEP1 as timestamp,
everything else in its entry (latch, counter, number) as it was, and does not print the
line of the key. -/
theorem idle_down_pending_within_window (ks : Nat → key_param_t)
    (hwf : ∀ j, j < KEY_MAX → (ks j).num = j) (i : Nat) (hi : i < KEY_MAX)
    (reads : Nat → KeyReads)
    (hidle : (ks i).trigger = NOT_ACTIVATION)
    (hdown : (reads i).val1 = KEY_DOWN_VALUE)
    (hwin : u32_sub (reads i).tick2 (reads i).tick1 ≤ FILTER_KEEP_TIME) :
    (bsp_key_scan reads ks).1 i
      = { ks i with trigger := FIRST_ACTIVATION, time := (reads i).tick1 } ∧
    ∀ m ∈ bsp_key_print (ks i), (bsp_key_scan reads ks).2.count m = 0 := by
  have hb : bsp_key_scan_body (reads i) (ks i)
      = ({ ks i with trigger := FIRST_ACTIVATION, time := (reads i).tick1 }, []) := by
    rw [body_idle_down _ _ hidle hdown]
    exact body_first_wait (reads i) _ rfl hwin
  refine ⟨by rw [scan_fst _ _ i hi, hb], ?_⟩
  intro m hm
  rw [scan_count_own reads ks hwf i hi m hm, hb]
  rfl

/-- Witness of C17 (amended): key 1 of the initial table reads DOWN; the tick counter reads
42 in STEP1 and 45 in STEP2. -/
theorem idle_down_pending_within_window_witness :
    (bsp_key_scan (fun _ => ⟨1, 42, 45, 1⟩) key_scan_init).1 1
        = { key_scan_init 1 with trigger := FIRST_ACTIVATION, time := 42 } ∧
    ∀ m ∈ bsp_key_print (key_scan_init 1),
      (bsp_key_scan (fun _ => ⟨1, 42, 45, 1⟩) key_scan_init).2.count m = 0 :=
  idle_down_pending_within_window key_scan_init (by decide) 1 (by decide)
    (fun _ => ⟨1, 42, 45, 1⟩) (by decide) (by decide) (by decide)

/-- C18 (as stated, refuted): key 0, pending since tick 0, is scanned at tick 10, an elapsed
time of exactly 10 ticks.  It is not re-sampled: whether the level reads DOWN or UP its
entry is unchanged, still in PendingConfirm. -/
theorem pending_at_ten_ticks_stays :
    ((pending_table 0) 0).trigger = FIRST_ACTIVATION ∧ ((pending_table 0) 0).time = 0 ∧
    (reads_at 1 10 0).tick2 - ((pending_table 0) 0).time = 10 ∧
    (bsp_key_scan (reads_at 1 10) (pending_table 0)).1 0 = (pending_table 0) 0 ∧
    (bsp_key_scan (reads_at 0 10) (pending_table 0)).1 0 = (pending_table 0) 0 ∧
    ((bsp_key_scan (reads_at 1 10) (pending_table 0)).1 0).trigger = FIRST_ACTIVATION := by
  decide

/-- C18 (amended): for every configured key in PendingConfirm with recorded tick `t0`, a
scan whose STEP2 reads the tick `t` (with `t0 ≤ t < 2 ^ 32`) leaves the entry of the key
unchanged, still in PendingConfirm, exactly when `t - t0 ≤ 10`, and takes the key out of
PendingConfirm exactly when `t - t0 > 10`; in that case the entry is decided by the level
re-read in STEP2.  So at an elapsed time of exactly 10 ticks the key stays pending; it is
re-sampled from 11 ticks on. -/
theorem pending_window (ks : Nat → key_param_t) (i : Nat) (hi : i < KEY_MAX)
    (reads : Nat → KeyReads) (t0 t : Nat)
    (hpend : (ks i).trigger = FIRST_ACTIVATION) (htime : (ks i).time = t0)
    (htick : (reads i).tick2 = t) (h0 : t0 ≤ t) (h32 : t < 2 ^ 32) :
    ((bsp_key_scan reads ks).1 i = ks i ↔ t - t0 ≤ FILTER_KEEP_TIME) ∧
    (((bsp_key_scan reads ks).1 i).trigger ≠ FIRST_ACTIVATION ↔ FILTER_KEEP_TIME < t - t0) ∧
    (FILTER_KEEP_TIME < t - t0 →
      (bsp_key_scan reads ks).1 i =
        if (reads i).val2 = KEY_DOWN_VALUE then
          { ks i with down_sign := KEY_DOWN_VALUE, trigger := REAL_ACTIVATION }
        else scan_step3 { ks i with trigger := REAL_ACTIVATION } (reads i).val2) := by
  have hsub : u32_sub (reads i).tick2 (ks i).time = t - t0 := by
    rw [htick, htime]; exact u32_sub_eq t t0 h0 h32
  have hb := body_first (reads i) (ks i) hpend
  rw [hsub] at hb
  rw [scan_fst _ _ i hi]
  have hne3 : ∀ v, (scan_step3 { ks i with trigger := REAL_ACTIVATION } v).trigger
      ≠ FIRST_ACTIVATION := by
    intro v
    rw [step3_real _ v rfl]
    split_ifs <;> simp
  have hne : ∀ k : key_param_t, k.trigger ≠ FIRST_ACTIVATION → k ≠ ks i := by
    intro k hk hc
    rw [hc] at hk
    exact hk hpend
  by_cases he : t - t0 ≤ FILTER_KEEP_TIME
  · have hn : ¬ FILTER_KEEP_TIME < t - t0 := Nat.not_lt.mpr he
    rw [if_pos he] at hb
    rw [hb]
    refine ⟨⟨fun _ => he, fun _ => rfl⟩, ⟨fun h => absurd hpend h, fun h => absurd h hn⟩, ?_⟩
    intro h
    exact absurd h hn
  · have hlt : FILTER_KEEP_TIME < t - t0 := Nat.not_le.mp he
    rw [if_neg he] at hb
    by_cases hv : (reads i).val2 = KEY_DOWN_VALUE
    · rw [if_pos hv] at hb
      rw [hb, if_pos hv]
      have hk : (key_param_t.mk (ks i).num (ks i).time REAL_ACTIVATION KEY_DOWN_VALUE
          (ks i).key_down_cnt).trigger ≠ FIRST_ACTIVATION := by
        show REAL_ACTIVATION ≠ FIRST_ACTIVATION
        decide
      exact ⟨⟨fun h => absurd h (hne _ hk), fun h => absurd h he⟩,
        ⟨fun _ => hlt, fun _ => hk⟩, fun _ => rfl⟩
    · rw [if_neg hv] at hb
      rw [hb, if_neg hv]
      exact ⟨⟨fun h => absurd h (hne _ (hne3 _)), fun h => absurd h he⟩,
        ⟨fun _ => hlt, fun _ => hne3 _⟩, fun _ => rfl⟩

/-- Witness of C18 (amended): key 0 pending since tick 5, scanned at tick 16 with the level
DOWN. -/
theorem pending_window_witness :
    ((bsp_key_scan (reads_at 1 16) (pending_table 5)).1 0 = pending_table 5 0
      ↔ 16 - 5 ≤ FILTER_KEEP_TIME) ∧
    (((bsp_key_scan (reads_at 1 16) (pending_table 5)).1 0).trigger ≠ FIRST_ACTIVATION
      ↔ FILTER_KEEP_TIME < 16 - 5) ∧
    (FILTER_KEEP_TIME < 16 - 5 →
      (bsp_key_scan (reads_at 1 16) (pending_table 5)).1 0 =
        if (reads_at 1 16 0).val2 = KEY_DOWN_VALUE then
          { pending_table 5 0 with down_sign := KEY_DOWN_VALUE, trigger := REAL_ACTIVATION }
        else scan_step3 { pending_table 5 0 with trigger := REAL_ACTIVATION }
          (reads_at 1 16 0).val2) :=
  pending_window (pending_table 5) 0 (by decide) (reads_at 1 16) 5 16 (by decide) (by decide)
    rfl (by decide) (by decide)

/-- C19 (as stated, refuted): key 0, pending since tick 0, is re-sampled by a scan at tick 11
that reads UP; the scan leaves it Idle, not Confirmed. -/
theorem expired_pending_read_up_goes_idle :
    ((pending_table 0) 0).trigger = FIRST_ACTIVATION ∧ ((pending_table 0) 0).time = 0 ∧
    FILTER_KEEP_TIME < u32_sub (reads_at 0 11 0).tick2 ((pending_table 0) 0).time ∧
    (reads_at 0 11 0).val2 = KEY_UP_VALUE ∧
    ((bsp_key_scan (reads_at 0 11) (pending_table 0)).1 0).trigger = NOT_ACTIVATION ∧
    ((bsp_key_scan (reads_at 0 11) (pending_table 0)).1 0).trigger ≠ REAL_ACTIVATION := by
  decide

/-- C19 (amended): for every configured key in PendingConfirm whose debounce window has
expired (the elapsed time read in STEP2 exceeds `FILTER_KEEP_TIME`), the scan that
re-samples it leaves the key in Confirmed with the latch set when the re-sampled level is
DOWN; when it is UP the trigger is set to Confirmed and STEP3 of the same scan re-arms
it, so the scan leaves the key Idle, with the latch as it was. -/
theorem expired_pending_resampled (ks : Nat → key_param_t) (i : Nat) (hi : i < KEY_MAX)
    (reads : Nat → KeyReads)
    (hpend : (ks i).trigger = FIRST_ACTIVATION)
    (hexp : FILTER_KEEP_TIME < u32_sub (reads i).tick2 (ks i).time) :
    ((reads i).val2 = KEY_DOWN_VALUE →
      (bsp_key_scan reads ks).1 i
        = { ks i with down_sign := KEY_DOWN_VALUE, trigger := REAL_ACTIVATION }) ∧
    ((reads i).val2 = KEY_UP_VALUE →
      (bsp_key_scan reads ks).1 i = { ks i with trigger := NOT_ACTIVATION }) := by
  rw [scan_fst _ _ i hi]
  constructor
  · intro hv
    rw [body_first_down _ _ hpend hexp hv]
  · intro hv
    have hv2 : (reads i).val2 ≠ KEY_DOWN_VALUE := by rw [hv]; decide
    rw [body_first_notdown _ _ hpend hexp hv2, step3_real _ _ rfl, if_pos hv]

/-- Witness of C19 (amended): key 0 pending since tick 0, scanned at tick 11. -/
theorem expired_pending_resampled_witness :
    ((reads_at 1 11 0).val2 = KEY_DOWN_VALUE →
      (bsp_key_scan (reads_at 1 11) (pending_table 0)).1 0
        = { pending_table 0 0 with down_sign := KEY_DOWN_VALUE, trigger := REAL_ACTIVATION }) ∧
    ((reads_at 1 11 0).val2 = KEY_UP_VALUE →
      (bsp_key_scan (reads_at 1 11) (pending_table 0)).1 0
        = { pending_table 0 0 with trigger := NOT_ACTIVATION }) :=
  expired_pending_resampled (pending_table 0) 0 (by decide) (reads_at 1 11) (by decide)
    (by decide)

/-- C20: in a table whose entries carry their index as key number, for every configured
key in Confirmed, a scan in which the key reads UP returns it to Idle and one in which it
reads DOWN leaves it in Confirmed; either way the timestamp, the latch and the counter
are as they were and the line of the key is not printed. -/
theorem confirmed_key_transitions (ks : Nat → key_param_t)
    (hwf : ∀ j, j < KEY_MAX → (ks j).num = j) (i : Nat) (hi : i < KEY_MAX)
    (reads : Nat → KeyReads)
    (hconf : (ks i).trigger = REAL_ACTIVATION) :
    ((reads i).val1 = KEY_UP_VALUE →
      (bsp_key_scan reads ks).1 i = { ks i with trigger := NOT_ACTIVATION }) ∧
    ((reads i).val1 = KEY_DOWN_VALUE → (bsp_key_scan reads ks).1 i = ks i) ∧
    ∀ m ∈ bsp_key_print (ks i), (bsp_key_scan reads ks).2.count m = 0 := by
  have hb := body_real (reads i) (ks i) hconf
  rw [step3_real _ _ hconf] at hb
  refine ⟨?_, ?_, ?_⟩
  · intro hv
    rw [scan_fst _ _ i hi, hb, if_pos hv]
  · intro hv
    have hv2 : (reads i).val1 ≠ KEY_UP_VALUE := by rw [hv]; decide
    rw [scan_fst _ _ i hi, hb, if_neg hv2]
  · intro m hm
    rw [scan_count_own reads ks hwf i hi m hm, hb]
    rfl

/-- Witness of C20: key 0, confirmed by scans at ticks 0 and 11, is scanned at tick 12. -/
theorem confirmed_key_transitions_witness :
    ((reads_at 0 12 0).val1 = KEY_UP_VALUE →
      (bsp_key_scan (reads_at 0 12) (bsp_key_scan (reads_at 1 11) (pending_table 0)).1).1 0
        = { (bsp_key_scan (reads_at 1 11) (pending_table 0)).1 0 with
            trigger := NOT_ACTIVATION }) ∧
    ((reads_at 0 12 0).val1 = KEY_DOWN_VALUE →
      (bsp_key_scan (reads_at 0 12) (bsp_key_scan (reads_at 1 11) (pending_table 0)).1).1 0
        = (bsp_key_scan (reads_at 1 11) (pending_table 0)).1 0) ∧
    ∀ m ∈ bsp_key_print ((bsp_key_scan (reads_at 1 11) (pending_table 0)).1 0),
      (bsp_key_scan (reads_at 0 12)
        (bsp_key_scan (reads_at 1 11) (pending_table 0)).1).2.count m = 0 :=
  confirmed_key_transitions (bsp_key_scan (reads_at 1 11) (pending_table 0)).1 (by decide) 0
    (by decide) (reads_at 0 12) (by decide)

/-! ### Claims on the press log and on the tick wrap -/

theorem step1_num (r : KeyReads) (k : key_param_t) : (scan_step1 r k).num = k.num := by
  unfold scan_step1
  split_ifs <;> rfl

/-- The loop body prints the line of its key exactly when it confirms a press. -/
theorem body_out_confirms (r : KeyReads) (k : key_param_t) :
    (bsp_key_scan_body r k).2 = if confirms r k then bsp_key_print k else [] := by
  unfold confirms bsp_key_scan_body scan_step2
  by_cases h1 : (scan_step1 r k).trigger = FIRST_ACTIVATION
  · by_cases h2 : FILTER_KEEP_TIME < u32_sub r.tick2 (scan_step1 r k).time
    · by_cases h3 : r.val2 = KEY_DOWN_VALUE
      · have h2b : u32_sub r.tick2 (scan_step1 r k).time > FILTER_KEEP_TIME := h2
        simp only [h1, h2, h2b, h3, and_self, if_true]
        simp [bsp_key_print, step1_num]
      · have h2b : u32_sub r.tick2 (scan_step1 r k).time > FILTER_KEEP_TIME := h2
        simp only [h1, h2b, h3, and_false, if_true, if_false]
    · have h2b : ¬ u32_sub r.tick2 (scan_step1 r k).time > FILTER_KEEP_TIME := h2
      simp only [h1, h2, h2b, false_and, and_false, if_true, if_false]
  · simp only [h1, false_and, if_false]

/-- C24: in a table whose entries carry their index as key number (as `key_scan[]` does),
`bsp_key_print` prints "Start/Stop Key Down" for `START_STOP_KEY`, "CW/CCW Key Down" for
`CW_CCW_KEY` and nothing for any other key number; and the log of one `bsp_key_scan` is
the line of key 0 if its iteration confirms a press, followed by the line of key 1 if its
iteration confirms a press: one line per confirmed press, and nothing in a scan that
confirms none. -/
theorem press_log (ks : Nat → key_param_t) (hwf : ∀ j, j < KEY_MAX → (ks j).num = j)
    (reads : Nat → KeyReads) :
    (∀ k : key_param_t,
      (k.num = START_STOP_KEY → bsp_key_print k = ["Start/Stop Key Down\r\n"]) ∧
      (k.num = CW_CCW_KEY → bsp_key_print k = ["CW/CCW Key Down\r\n"]) ∧
      (k.num ≠ START_STOP_KEY → k.num ≠ CW_CCW_KEY → bsp_key_print k = [])) ∧
    (bsp_key_scan reads ks).2
      = (if confirms (reads 0) (ks 0) then ["Start/Stop Key Down\r\n"] else [])
        ++ (if confirms (reads 1) (ks 1) then ["CW/CCW Key Down\r\n"] else []) ∧
    (¬ confirms (reads 0) (ks 0) → ¬ confirms (reads 1) (ks 1) →
      (bsp_key_scan reads ks).2 = []) := by
  have hprint : ∀ k : key_param_t,
      (k.num = START_STOP_KEY → bsp_key_print k = ["Start/Stop Key Down\r\n"]) ∧
      (k.num = CW_CCW_KEY → bsp_key_print k = ["CW/CCW Key Down\r\n"]) ∧
      (k.num ≠ START_STOP_KEY → k.num ≠ CW_CCW_KEY → bsp_key_print k = []) := by
    intro k
    refine ⟨?_, ?_, ?_⟩
    · intro h; simp [bsp_key_print, h]
    · intro h; simp [bsp_key_print, h]
    · intro h0 h1; simp [bsp_key_print, h0, h1]
  have h0 := (hprint (ks 0)).1 (hwf 0 (by decide))
  have h1 := (hprint (ks 1)).2.1 (hwf 1 (by decide))
  have hlog : (bsp_key_scan reads ks).2
      = (if confirms (reads 0) (ks 0) then ["Start/Stop Key Down\r\n"] else [])
        ++ (if confirms (reads 1) (ks 1) then ["CW/CCW Key Down\r\n"] else []) := by
    rw [scan_snd, body_out_confirms, body_out_confirms, h0, h1]
  refine ⟨hprint, hlog, ?_⟩
  intro n0 n1
  rw [hlog, if_neg n0, if_neg n1]
  rfl

/-- Witness of C24: both keys, pending since tick 0, are read DOWN at tick 11. -/
theorem press_log_witness :
    (∀ k : key_param_t,
      (k.num = START_STOP_KEY → bsp_key_print k = ["Start/Stop Key Down\r\n"]) ∧
      (k.num = CW_CCW_KEY → bsp_key_print k = ["CW/CCW Key Down\r\n"]) ∧
      (k.num ≠ START_STOP_KEY → k.num ≠ CW_CCW_KEY → bsp_key_print k = [])) ∧
    (bsp_key_scan (reads_at 1 11) (pending_table 0)).2
      = (if confirms (reads_at 1 11 0) (pending_table 0 0)
          then ["Start/Stop Key Down\r\n"] else [])
        ++ (if confirms (reads_at 1 11 1) (pending_table 0 1)
          then ["CW/CCW Key Down\r\n"] else []) ∧
    (¬ confirms (reads_at 1 11 0) (pending_table 0 0) →
      ¬ confirms (reads_at 1 11 1) (pending_table 0 1) →
      (bsp_key_scan (reads_at 1 11) (pending_table 0)).2 = []) :=
  press_log (pending_table 0) (by decide) (reads_at 1 11)

theorem u32_sub_shift (t t0 d : Nat) :
    u32_sub ((t + d) % 2 ^ 32) ((t0 + d) % 2 ^ 32) = u32_sub t t0 := by
  unfold u32_sub
  omega

/-- The iteration of a pending key on shifted ticks: the same as on the original ticks, with
the shifted timestamp. -/
theorem body_shift (r : KeyReads) (k : key_param_t) (d : Nat)
    (h : k.trigger = FIRST_ACTIVATION) :
    bsp_key_scan_body { r with tick2 := (r.tick2 + d) % 2 ^ 32 }
        { k with time := (k.time + d) % 2 ^ 32 }
      = ({ (bsp_key_scan_body r k).1 with time := (k.time + d) % 2 ^ 32 },
          (bsp_key_scan_body r k).2) := by
  have hk : ({ k with time := (k.time + d) % 2 ^ 32 } : key_param_t).trigger
      = FIRST_ACTIVATION := h
  rw [body_first r k h, body_first _ { k with time := (k.time + d) % 2 ^ 32 } hk]
  simp only [u32_sub_shift]
  by_cases he : u32_sub r.tick2 k.time ≤ FILTER_KEEP_TIME
  · simp only [if_pos he]
  · simp only [if_neg he]
    by_cases hv : r.val2 = KEY_DOWN_VALUE
    · simp only [if_pos hv]
      simp [bsp_key_print]
    · simp only [if_neg hv]
      rw [step3_real _ _ rfl, step3_real _ _ rfl]
      split_ifs <;> rfl

/-- C26: the window is measured modulo `2 ^ 32`.  For every configured key that is pending,
every reading of the scan and every offset `d`, the scan with the timestamp of the key
and the tick read in STEP2 both shifted by `d` modulo `2 ^ 32` leaves the entry of the key
as the unshifted scan does, but for the shifted timestamp, and prints the same log.  And a
key pending since tick `2 ^ 32 - 5` that is scanned at a tick `t` after the wrap leaves
PendingConfirm exactly when `t` is 6 or later. -/
theorem window_unaffected_by_wrap (ks : Nat → key_param_t) (i : Nat) (hi : i < KEY_MAX)
    (reads : Nat → KeyReads) (d : Nat) (hpend : (ks i).trigger = FIRST_ACTIVATION) :
    (bsp_key_scan
        (Function.update reads i { reads i with tick2 := ((reads i).tick2 + d) % 2 ^ 32 })
        (Function.update ks i { ks i with time := ((ks i).time + d) % 2 ^ 32 })).1 i
      = { (bsp_key_scan reads ks).1 i with time := ((ks i).time + d) % 2 ^ 32 } ∧
    (bsp_key_scan
        (Function.update reads i { reads i with tick2 := ((reads i).tick2 + d) % 2 ^ 32 })
        (Function.update ks i { ks i with time := ((ks i).time + d) % 2 ^ 32 })).2
      = (bsp_key_scan reads ks).2 ∧
    (∀ t, (ks i).time = 2 ^ 32 - 5 → (reads i).tick2 = t → t < 2 ^ 32 - 5 →
      ((bsp_key_scan reads ks).1 i = ks i ↔ t < 6) ∧
      (((bsp_key_scan reads ks).1 i).trigger ≠ FIRST_ACTIVATION ↔ 6 ≤ t)) := by
  refine ⟨?_, ?_, ?_⟩
  · rw [scan_fst _ _ i hi, scan_fst _ _ i hi]
    simp only [Function.update_same]
    rw [body_shift _ _ d hpend]
  · rw [scan_snd, scan_snd]
    have hi2 : i = 0 ∨ i = 1 := by
      have : i < 2 := hi
      omega
    rcases hi2 with rfl | rfl
    · have e := body_shift (reads 0) (ks 0) d hpend
      simp only [Function.update_same, e, ne_eq, one_ne_zero, not_false_eq_true,
        Function.update_noteq]
    · have e := body_shift (reads 1) (ks 1) d hpend
      simp only [Function.update_same, e, ne_eq, zero_ne_one, not_false_eq_true,
        Function.update_noteq]
  · intro t ht0 ht hlt
    have hsub : u32_sub (reads i).tick2 (ks i).time = t + 5 := by
      rw [ht0, ht]
      unfold u32_sub
      omega
    have hb := body_first (reads i) (ks i) hpend
    rw [hsub] at hb
    rw [scan_fst _ _ i hi]
    have hne3 : ∀ v, (scan_step3 { ks i with trigger := REAL_ACTIVATION } v).trigger
        ≠ FIRST_ACTIVATION := by
      intro v
      rw [step3_real _ v rfl]
      split_ifs <;> simp
    have hne : ∀ k : key_param_t, k.trigger ≠ FIRST_ACTIVATION → k ≠ ks i := by
      intro k hk hc
      rw [hc] at hk
      exact hk hpend
    by_cases he : t + 5 ≤ FILTER_KEEP_TIME
    · have h6 : t < 6 := by
        have : t + 5 ≤ 10 := he
        omega
      rw [if_pos he] at hb
      rw [hb]
      exact ⟨⟨fun _ => h6, fun _ => rfl⟩, ⟨fun h => absurd hpend h, fun h => by omega⟩⟩
    · have h6 : 6 ≤ t := by
        have : ¬ t + 5 ≤ 10 := he
        omega
      rw [if_neg he] at hb
      by_cases hv : (reads i).val2 = KEY_DOWN_VALUE
      · rw [if_pos hv] at hb
        rw [hb]
        have hk : (key_param_t.mk (ks i).num (ks i).time REAL_ACTIVATION KEY_DOWN_VALUE
            (ks i).key_down_cnt).trigger ≠ FIRST_ACTIVATION := by
          show REAL_ACTIVATION ≠ FIRST_ACTIVATION
          decide
        exact ⟨⟨fun h => absurd h (hne _ hk), fun h => by omega⟩, ⟨fun _ => h6, fun _ => hk⟩⟩
      · rw [if_neg hv] at hb
        rw [hb]
        exact ⟨⟨fun h => absurd h (hne _ (hne3 _)), fun h => by omega⟩,
          ⟨fun _ => h6, fun _ => hne3 _⟩⟩

/-- Witness of C26: key 0 pending since tick `2 ^ 32 - 5`, scanned at tick 6 with the level
DOWN, and the same with both ticks shifted by 100. -/
theorem window_unaffected_by_wrap_witness :
    (bsp_key_scan
        (Function.update (reads_at 1 6) 0
          { reads_at 1 6 0 with tick2 := ((reads_at 1 6 0).tick2 + 100) % 2 ^ 32 })
        (Function.update (pending_table (2 ^ 32 - 5)) 0
          { pending_table (2 ^ 32 - 5) 0 with
            time := ((pending_table (2 ^ 32 - 5) 0).time + 100) % 2 ^ 32 })).1 0
      = { (bsp_key_scan (reads_at 1 6) (pending_table (2 ^ 32 - 5))).1 0 with
          time := ((pending_table (2 ^ 32 - 5) 0).time + 100) % 2 ^ 32 } ∧
    (bsp_key_scan
        (Function.update (reads_at 1 6) 0
          { reads_at 1 6 0 with tick2 := ((reads_at 1 6 0).tick2 + 100) % 2 ^ 32 })
        (Function.update (pending_table (2 ^ 32 - 5)) 0
          { pending_table (2 ^ 32 - 5) 0 with
            time := ((pending_table (2 ^ 32 - 5) 0).time + 100) % 2 ^ 32 })).2
      = (bsp_key_scan (reads_at 1 6) (pending_table (2 ^ 32 - 5))).2 ∧
    (∀ t, (pending_table (2 ^ 32 - 5) 0).time = 2 ^ 32 - 5 → (reads_at 1 6 0).tick2 = t →
      t < 2 ^ 32 - 5 →
      ((bsp_key_scan (reads_at 1 6) (pending_table (2 ^ 32 - 5))).1 0
          = pending_table (2 ^ 32 - 5) 0 ↔ t < 6) ∧
      (((bsp_key_scan (reads_at 1 6) (pending_table (2 ^ 32 - 5))).1 0).trigger
          ≠ FIRST_ACTIVATION ↔ 6 ≤ t)) :=
  window_unaffected_by_wrap (pending_table (2 ^ 32 - 5)) 0 (by decide) (reads_at 1 6) 100
    (by decide)

end BspKey


/-! ## Theorems on the delay -/

namespace BspSystick

/-- With the deadline at the largest counter value the loop never sees a larger count. -/
theorem delay_loop_max (fuel c : Nat) (hc : c < 2 ^ 32) :
    delay_loop (2 ^ 32 - 1) fuel c = none := by
  induction fuel generalizing c with
  | zero =>
    have h : c ≤ 2 ^ 32 - 1 := by omega
    rw [delay_loop, if_pos h]
  | succ n ih =>
    have h : c ≤ 2 ^ 32 - 1 := by omega
    have hn : SysTick_Handler c < 2 ^ 32 := Nat.mod_lt _ (by decide)
    rw [delay_loop, if_pos h, ih _ hn]
    rfl

/-- The loop entered `m` ticks before the counter exceeds the deadline leaves after `m`
ticks, given that much fuel. -/
theorem delay_loop_steps (temp : Nat) (ht : temp + 1 < 2 ^ 32) (m c fuel : Nat)
    (hc : c + m = temp + 1) (hf : m ≤ fuel) : delay_loop temp fuel c = some m := by
  induction m generalizing c fuel with
  | zero =>
    have h : ¬ c ≤ temp := by omega
    cases fuel <;> simp [delay_loop, h]
  | succ n ih =>
    have h : c ≤ temp := by omega
    obtain ⟨g, rfl⟩ : ∃ g, fuel = g + 1 := ⟨fuel - 1, by omega⟩
    have hs : SysTick_Handler c = c + 1 := by
      unfold SysTick_Handler
      omega
    have := ih (c + 1) g (by omega) (by omega)
    simp [delay_loop, h, hs, this]

/-- Away from the wrap the delay returns, after `time + 1` ticks. -/
theorem delay_in_range (time c fuel : Nat) (h : c + time + 1 < 2 ^ 32) (hf : time + 1 ≤ fuel) :
    bsp_delay_ms time c fuel = some (time + 1) := by
  have hm : (c + time) % 2 ^ 32 = c + time := by omega
  simp only [bsp_delay_ms, hm]
  exact delay_loop_steps (c + time) h (time + 1) c fuel (by omega) hf

/-- A delay whose deadline is the largest counter value does not return. -/
theorem delay_deadline_max (time c fuel : Nat) (hc : c < 2 ^ 32)
    (h : (c + time) % 2 ^ 32 = 2 ^ 32 - 1) : bsp_delay_ms time c fuel = none := by
  simp only [bsp_delay_ms, h]
  exact delay_loop_max fuel c hc

/-- A delay whose deadline wrapped below the counter returns at the first test. -/
theorem delay_deadline_wrapped (time c fuel : Nat) (h : (c + time) % 2 ^ 32 < c) :
    bsp_delay_ms time c fuel = some 0 := by
  have hn : ¬ c ≤ (c + time) % 2 ^ 32 := Nat.not_le.mpr h
  cases fuel <;> simp only [bsp_delay_ms, delay_loop, if_neg hn]

/-- C23 (code defect): entered when the counter reads `2 ^ 32 - 1`, `bsp_delay_ms(1)`
computes the deadline `temp = 0`, finds the counter above it at the first test and
returns after 0 ticks, whatever the fuel; so does `bsp_delay_ms(1000)` entered at
`2 ^ 32 - 1000`. -/
theorem delay_returns_at_once_at_wrap :
    (∀ fuel, bsp_delay_ms 1 (2 ^ 32 - 1) fuel = some 0) ∧
    (∀ fuel, bsp_delay_ms 1000 (2 ^ 32 - 1000) fuel = some 0) := by
  constructor <;> intro fuel <;> cases fuel <;> simp [bsp_delay_ms, delay_loop]

/-- C30 (code defect): entered when the counter reads `2 ^ 32 - 2`, `bsp_delay_ms(1)`
computes the deadline `temp = 2 ^ 32 - 1`, which no value of the counter exceeds: the loop
is still spinning after any number of ticks. -/
theorem delay_never_returns_at_max :
    ∀ fuel, bsp_delay_ms 1 (2 ^ 32 - 2) fuel = none := by
  intro fuel
  have hm : (2 ^ 32 - 2 + 1) % 2 ^ 32 = 2 ^ 32 - 1 := by decide
  simp only [bsp_delay_ms, hm]
  exact delay_loop_max fuel (2 ^ 32 - 2) (by decide)

end BspSystick

/-! ## Theorems on the UART callbacks -/

namespace BspUart

/-! ### `strncmp` against a keyword -/

/-- Against a second string without NUL among its first `n` bytes, `strncmp` returns 0
exactly when the first `n` bytes agree. -/
theorem strncmp_eq_zero_iff (n : Nat) (s1 s2 : Nat → Nat) (h2 : ∀ i, i < n → s2 i ≠ 0) :
    strncmp s1 s2 n = 0 ↔ ∀ i, i < n → s1 i = s2 i := by
  induction n generalizing s1 s2 with
  | zero => simp [strncmp]
  | succ n ih =>
    unfold strncmp
    by_cases h0 : s1 0 = s2 0
    · have hz : s1 0 ≠ 0 := by rw [h0]; exact h2 0 (Nat.succ_pos n)
      simp only [h0, ne_eq, not_true_eq_false, if_false]
      rw [if_neg (by rw [← h0]; exact hz)]
      rw [ih (fun i => s1 (i + 1)) (fun i => s2 (i + 1))
        (fun i hi => h2 (i + 1) (Nat.succ_lt_succ hi))]
      constructor
      · intro h i hi
        cases i with
        | zero => exact h0
        | succ j => exact h j (Nat.lt_of_succ_lt_succ hi)
      · intro h i hi
        exact h (i + 1) (Nat.succ_lt_succ hi)
    · rw [if_pos h0]
      constructor
      · intro h
        exfalso
        apply h0
        have : (s1 0 : Int) = (s2 0 : Int) := by omega
        exact_mod_cast this
      · intro h
        exact absurd (h 0 (Nat.succ_pos n)) h0

/-- Two buffers that agree before a newline stored at offset `L` give the same verdict
against a keyword that contains neither NUL nor newline. -/
theorem strncmp_congr (kw : Nat → Nat) (n : Nat)
    (hkw : ∀ i, i < n → kw i ≠ 0 ∧ kw i ≠ 10)
    (buf buf2 : Nat → Nat) (L : Nat) (hag : ∀ i, i < L → buf i = buf2 i)
    (hL : buf L = 10) (hL2 : buf2 L = 10) :
    strncmp buf kw n = 0 ↔ strncmp buf2 kw n = 0 := by
  rw [strncmp_eq_zero_iff n buf kw (fun i hi => (hkw i hi).1),
    strncmp_eq_zero_iff n buf2 kw (fun i hi => (hkw i hi).1)]
  constructor
  · intro h i hi
    have hn : n ≤ L := by
      by_contra hc
      have hlt : L < n := Nat.lt_of_not_le hc
      exact (hkw L hlt).2 (by rw [← h L hlt, hL])
    rw [← hag i (Nat.lt_of_lt_of_le hi hn)]
    exact h i hi
  · intro h i hi
    have hn : n ≤ L := by
      by_contra hc
      have hlt : L < n := Nat.lt_of_not_le hc
      exact (hkw L hlt).2 (by rw [← h L hlt, hL2])
    rw [hag i (Nat.lt_of_lt_of_le hi hn)]
    exact h i hi

/-- No keyword contains a NUL or a newline. -/
theorem keywords_clean :
    (∀ i, i < 3 → c_str "CAN" i ≠ 0 ∧ c_str "CAN" i ≠ 10) ∧
    (∀ i, i < 5 → c_str "RS485" i ≠ 0 ∧ c_str "RS485" i ≠ 10) ∧
    (∀ i, i < 6 → c_str "PC_COM" i ≠ 0 ∧ c_str "PC_COM" i ≠ 10) ∧
    (∀ i, i < 7 → c_str "CURRENT" i ≠ 0 ∧ c_str "CURRENT" i ≠ 10) ∧
    (∀ i, i < 7 → c_str "VOLTAGE" i ≠ 0 ∧ c_str "VOLTAGE" i ≠ 10) ∧
    (∀ i, i < 8 → c_str "OVERFLOW" i ≠ 0 ∧ c_str "OVERFLOW" i ≠ 10) ∧
    (∀ i, i < 10 → c_str "TEMPERATUR" i ≠ 0 ∧ c_str "TEMPERATUR" i ≠ 10) := by
  decide

/-- The keyword tests do not depend on what the buffer holds behind the newline. -/
theorem cmd_match_congr (buf buf2 : Nat → Nat) (L : Nat) (hag : ∀ i, i < L → buf i = buf2 i)
    (hL : buf L = 10) (hL2 : buf2 L = 10) (f : factory_func_check_t) :
    cmd_match buf f = cmd_match buf2 f := by
  obtain ⟨k1, k2, k3, k4, k5, k6, k7⟩ := keywords_clean
  have e1 := strncmp_congr _ 3 k1 buf buf2 L hag hL hL2
  have e2 := strncmp_congr _ 5 k2 buf buf2 L hag hL hL2
  have e3 := strncmp_congr _ 6 k3 buf buf2 L hag hL hL2
  have e4 := strncmp_congr _ 7 k4 buf buf2 L hag hL hL2
  have e5 := strncmp_congr _ 7 k5 buf buf2 L hag hL hL2
  have e6 := strncmp_congr _ 8 k6 buf buf2 L hag hL hL2
  have e7 := strncmp_congr _ 10 k7 buf buf2 L hag hL hL2
  simp only [cmd_match, e1, e2, e3, e4, e5, e6, e7]

/-! ### Single calls of the recogniser -/

theorem buf_set_same (buf : Nat → Nat) (i v : Nat) : buf_set buf i v i = v := by
  simp [buf_set]

theorem buf_set_ne (buf : Nat → Nat) (i v j : Nat) (h : j ≠ i) : buf_set buf i v j = buf j := by
  simp [buf_set, h]

theorem analyse_nonl (d : Nat) (s : CmdState) (hd : d ≠ 10) (hs : s.len < 32) :
    bsp_uart_factory_cmd_analyse d s
      = some ⟨(s.len + 1) % 32, buf_set s.recv_buf s.len d, s.factory_func_check⟩ := by
  have h1 : (s.len + 1) % 256 = s.len + 1 := by omega
  have h2 : s.len + 1 - 1 = s.len := by omega
  by_cases h31 : s.len = 31
  · simp [bsp_uart_factory_cmd_analyse, hs, h1, h2, hd, h31, buf_set_same]
  · have h3 : ¬ (32 = s.len + 1) := by omega
    have h4 : (s.len + 1) % 32 = s.len + 1 := by omega
    simp [bsp_uart_factory_cmd_analyse, hs, h1, h2, hd, h3, h4, buf_set_same]

theorem analyse_newline (s : CmdState) (hs : s.len < 32) :
    bsp_uart_factory_cmd_analyse 10 s
      = some ⟨0, buf_set s.recv_buf s.len 10,
          cmd_match (buf_set s.recv_buf s.len 10) s.factory_func_check⟩ := by
  have h1 : (s.len + 1) % 256 = s.len + 1 := by omega
  have h2 : s.len + 1 - 1 = s.len := by omega
  simp [bsp_uart_factory_cmd_analyse, hs, h1, h2, buf_set_same]

theorem cmd_feed_append (a b : List Nat) (s : CmdState) :
    cmd_feed (a ++ b) s = (cmd_feed a s).bind (cmd_feed b) := by
  induction a generalizing s with
  | nil => rfl
  | cons d ds ih =>
    simp only [List.cons_append, cmd_feed]
    cases bsp_uart_factory_cmd_analyse d s with
    | none => rfl
    | some t => simp [ih]

/-- Bytes without a newline only move the line index, which wraps at 32; no flag changes. -/
theorem cmd_feed_nonl (bs : List Nat) (s : CmdState) (hnl : ∀ b ∈ bs, b ≠ 10)
    (hs : s.len < 32) :
    ∃ buf, cmd_feed bs s = some ⟨(s.len + bs.length) % 32, buf, s.factory_func_check⟩ := by
  induction bs generalizing s with
  | nil =>
    refine ⟨s.recv_buf, ?_⟩
    have h : (s.len + ([] : List Nat).length) % 32 = s.len := by
      simp only [List.length_nil]; omega
    rw [h]; rfl
  | cons d ds ih =>
    have hd := hnl d (List.mem_cons_self _ _)
    obtain ⟨buf, hbuf⟩ := ih ⟨(s.len + 1) % 32, buf_set s.recv_buf s.len d,
      s.factory_func_check⟩ (fun b hb => hnl b (List.mem_cons_of_mem _ hb))
      (Nat.mod_lt _ (by decide))
    refine ⟨buf, ?_⟩
    simp only [cmd_feed, analyse_nonl d s hd hs, Option.some_bind, hbuf, List.length_cons]
    have : ((s.len + 1) % 32 + ds.length) % 32 = (s.len + (ds.length + 1)) % 32 := by omega
    simp [this]

/-! ### Whole lines -/

theorem buf_write_lt (bs : List Nat) (buf : Nat → Nat) (start j : Nat) (hj : j < start) :
    buf_write buf start bs j = buf j := by
  induction bs generalizing buf start with
  | nil => rfl
  | cons b bs ih =>
    simp only [buf_write]
    rw [ih _ _ (Nat.lt_succ_of_lt hj), buf_set_ne _ _ _ _ (Nat.ne_of_lt hj)]

theorem buf_write_get (bs : List Nat) (buf : Nat → Nat) (start i : Nat) (hi : i < bs.length) :
    buf_write buf start bs (start + i) = bs.getD i 0 := by
  induction bs generalizing buf start i with
  | nil => simp at hi
  | cons b bs ih =>
    simp only [buf_write]
    cases i with
    | zero =>
      show buf_write (buf_set buf start b) (start + 1) bs start = b
      rw [buf_write_lt _ _ _ _ (Nat.lt_succ_self start), buf_set_same]
    | succ j =>
      have hj : j < bs.length := by simpa using hi
      have e : start + (j + 1) = start + 1 + j := by omega
      rw [e, ih _ _ _ hj]
      rfl

/-- Bytes without a newline that fit below offset 32 are stored one after the other. -/
theorem cmd_feed_plain (bs : List Nat) (s : CmdState) (hnl : ∀ b ∈ bs, b ≠ 10)
    (hs : s.len + bs.length < 32) :
    cmd_feed bs s
      = some ⟨s.len + bs.length, buf_write s.recv_buf s.len bs, s.factory_func_check⟩ := by
  induction bs generalizing s with
  | nil => rfl
  | cons d ds ih =>
    have hd := hnl d (List.mem_cons_self _ _)
    have hl : ds.length + 1 = (d :: ds).length := rfl
    have h32 : s.len < 32 := by omega
    have hm : (s.len + 1) % 32 = s.len + 1 := by omega
    simp only [cmd_feed, analyse_nonl d s hd h32, Option.some_bind, hm]
    rw [ih _ (fun b hb => hnl b (List.mem_cons_of_mem _ hb)) (by simp only []; omega)]
    simp only [buf_write, List.length_cons]
    have e : s.len + 1 + ds.length = s.len + (ds.length + 1) := by omega
    rw [e]

theorem buf_write_append (a b : List Nat) (buf : Nat → Nat) (start : Nat) :
    buf_write buf start (a ++ b) = buf_write (buf_write buf start a) (start + a.length) b := by
  induction a generalizing buf start with
  | nil => rfl
  | cons x xs ih =>
    have e : start + 1 + xs.length = start + (xs.length + 1) := by omega
    show buf_write (buf_set buf start x) (start + 1) (xs ++ b)
      = buf_write (buf_write (buf_set buf start x) (start + 1) xs) (start + (xs.length + 1)) b
    rw [ih, e]

/-- A terminated line that fits the buffer, fed from line index 0: the line is stored from
offset 0, the seven tests run on it, and the index is 0 again. -/
theorem cmd_feed_line (body : List Nat) (s : CmdState) (hs : s.len = 0)
    (hnl : ∀ b ∈ body, b ≠ 10) (hcap : body.length + 1 ≤ 32) :
    cmd_feed (body ++ [10]) s
      = some ⟨0, buf_write s.recv_buf 0 (body ++ [10]),
          cmd_match (buf_write s.recv_buf 0 (body ++ [10])) s.factory_func_check⟩ := by
  rw [cmd_feed_append, cmd_feed_plain body s hnl (by omega)]
  simp only [Option.some_bind, cmd_feed]
  rw [analyse_newline _ (by simp only []; omega)]
  simp only [Option.some_bind, buf_write_append, buf_write, hs, Nat.zero_add]

/-- A list whose entries are those of the head of `line` is a head segment of `line`. -/
theorem starts_of_get (K line : List Nat) (hlen : K.length ≤ line.length)
    (h : ∀ i, i < K.length → line.getD i 0 = K.getD i 0) : K <+: line := by
  induction K generalizing line with
  | nil => exact ⟨line, rfl⟩
  | cons k K ih =>
    cases line with
    | nil => simp at hlen
    | cons l line =>
      have h0 : l = k := by simpa using h 0 (Nat.succ_pos _)
      obtain ⟨t, ht⟩ := ih line (by simpa using hlen)
        (fun i hi => by simpa using h (i + 1) (Nat.succ_lt_succ hi))
      exact ⟨t, by rw [h0, List.cons_append, ht]⟩

/-- On a stored line that does not begin with the keyword, the test of the keyword
fails. -/
theorem strncmp_line_ne (kw : String) (n : Nat) (hn : n = (str_bytes kw).length)
    (hkw : ∀ i, i < n → c_str kw i ≠ 0 ∧ c_str kw i ≠ 10)
    (body : List Nat) (buf : Nat → Nat)
    (hno : ¬ (str_bytes kw <+: body ++ [10])) :
    strncmp (buf_write buf 0 (body ++ [10])) (c_str kw) n ≠ 0 := by
  intro hz
  rw [strncmp_eq_zero_iff n _ _ (fun i hi => (hkw i hi).1)] at hz
  have hget : ∀ i, i < (body ++ [10]).length →
      buf_write buf 0 (body ++ [10]) i = (body ++ [10]).getD i 0 := by
    intro i hi
    have := buf_write_get (body ++ [10]) buf 0 i hi
    rwa [Nat.zero_add] at this
  have hL : (body ++ [10]).length = body.length + 1 := by simp
  have hnl : n ≤ body.length := by
    by_contra hc
    have hlt : body.length < n := Nat.lt_of_not_le hc
    have h1 := hz body.length hlt
    rw [hget body.length (by omega)] at h1
    have h2 : (body ++ [10]).getD body.length 0 = 10 := by simp [List.getD]
    exact (hkw body.length hlt).2 (by rw [← h1, h2])
  apply hno
  apply starts_of_get
  · omega
  · intro i hi
    have hi2 : i < n := by omega
    have h1 := hz i hi2
    rw [hget i (by omega)] at h1
    exact h1

/-- The flags a terminated line leaves do not depend on what the buffer held before. -/
theorem cmd_feed_line_flags (body : List Nat) (buf : Nat → Nat) (f : factory_func_check_t)
    (hnl : ∀ b ∈ body, b ≠ 10) (hcap : body.length + 1 ≤ 32) :
    (cmd_feed (body ++ [10]) ⟨0, buf, f⟩).map (fun s => s.factory_func_check)
      = some (cmd_match (buf_write (fun _ => 0) 0 (body ++ [10])) f) := by
  rw [cmd_feed_line body ⟨0, buf, f⟩ rfl hnl hcap]
  simp only [Option.map_some']
  have hget : ∀ (b0 : Nat → Nat) (i : Nat), i < (body ++ [10]).length →
      buf_write b0 0 (body ++ [10]) i = (body ++ [10]).getD i 0 := by
    intro b0 i hi
    have := buf_write_get (body ++ [10]) b0 0 i hi
    rwa [Nat.zero_add] at this
  have hL : (body ++ [10]).length = body.length + 1 := by simp
  have h10 : (body ++ [10]).getD body.length 0 = 10 := by simp [List.getD]
  rw [cmd_match_congr (buf_write buf 0 (body ++ [10])) (buf_write (fun _ => 0) 0 (body ++ [10]))
    body.length
    (fun i hi => by rw [hget buf i (by omega), hget _ i (by omega)])
    (by rw [hget buf _ (by omega), h10])
    (by rw [hget _ _ (by omega), h10])]

/-- One call keeps two states alike: both calls are undefined, or both return states with
the same line index, the same flags and the same bytes of the current line. -/
theorem analyse_same_line (d : Nat) (s t : CmdState) (h : same_line s t) :
    (bsp_uart_factory_cmd_analyse d s = none ∧ bsp_uart_factory_cmd_analyse d t = none) ∨
    ∃ s2 t2, bsp_uart_factory_cmd_analyse d s = some s2 ∧
      bsp_uart_factory_cmd_analyse d t = some t2 ∧ same_line s2 t2 := by
  obtain ⟨hlen, hfl, hbuf⟩ := h
  by_cases hs : s.len < 32
  · right
    have ht : t.len < 32 := by rw [← hlen]; exact hs
    by_cases hd : d = 10
    · subst hd
      refine ⟨_, _, analyse_newline s hs, analyse_newline t ht, rfl, ?_, ?_⟩
      · simp only []
        rw [← hfl, ← hlen]
        apply cmd_match_congr _ _ s.len
        · intro i hi
          rw [buf_set_ne _ _ _ _ (Nat.ne_of_lt hi), buf_set_ne _ _ _ _ (Nat.ne_of_lt hi)]
          exact hbuf i hi
        · exact buf_set_same _ _ _
        · exact buf_set_same _ _ _
      · intro i hi
        exact absurd hi (Nat.not_lt_zero i)
    · refine ⟨_, _, analyse_nonl d s hd hs, analyse_nonl d t hd ht, ?_, hfl, ?_⟩
      · simp only [hlen]
      · intro i hi
        simp only [] at hi
        rw [← hlen]
        show buf_set s.recv_buf s.len d i = buf_set t.recv_buf s.len d i
        by_cases e : i = s.len
        · rw [e, buf_set_same, buf_set_same]
        · rw [buf_set_ne _ _ _ _ e, buf_set_ne _ _ _ _ e]
          exact hbuf i (by omega)
  · left
    have ht : ¬ t.len < 32 := by rw [← hlen]; exact hs
    exact ⟨by simp [bsp_uart_factory_cmd_analyse, hs],
      by simp [bsp_uart_factory_cmd_analyse, ht]⟩

/-- Feeding the same bytes to two states that are alike gives the same line index and the
same flags. -/
theorem cmd_feed_same_line (bs : List Nat) (s t : CmdState) (h : same_line s t) :
    (cmd_feed bs s).map (fun u => (u.len, u.factory_func_check))
      = (cmd_feed bs t).map (fun u => (u.len, u.factory_func_check)) := by
  induction bs generalizing s t with
  | nil =>
    simp only [cmd_feed, Option.map_some', h.1, h.2.1]
  | cons d ds ih =>
    simp only [cmd_feed]
    rcases analyse_same_line d s t h with ⟨h1, h2⟩ | ⟨s2, t2, h1, h2, h3⟩
    · rw [h1, h2]
    · rw [h1, h2]
      exact ih s2 t2 h3

/-! ### Claims on the command recogniser -/

/-- C5: for each of the seven keywords, feeding its bytes followed by a newline, one byte
per call, from line index 0 with all flags clear (whatever the buffer still holds) sets the
flag of that keyword to 0xFF and leaves the other six clear. -/
theorem keyword_line_sets_own_flag (buf : Nat → Nat) :
    (cmd_feed (str_bytes "CAN" ++ [10]) ⟨0, buf, flags_clear⟩).map
        (fun s => s.factory_func_check) = some ⟨0xFF, 0, 0, 0, 0, 0, 0⟩ ∧
    (cmd_feed (str_bytes "RS485" ++ [10]) ⟨0, buf, flags_clear⟩).map
        (fun s => s.factory_func_check) = some ⟨0, 0xFF, 0, 0, 0, 0, 0⟩ ∧
    (cmd_feed (str_bytes "PC_COM" ++ [10]) ⟨0, buf, flags_clear⟩).map
        (fun s => s.factory_func_check) = some ⟨0, 0, 0xFF, 0, 0, 0, 0⟩ ∧
    (cmd_feed (str_bytes "CURRENT" ++ [10]) ⟨0, buf, flags_clear⟩).map
        (fun s => s.factory_func_check) = some ⟨0, 0, 0, 0xFF, 0, 0, 0⟩ ∧
    (cmd_feed (str_bytes "VOLTAGE" ++ [10]) ⟨0, buf, flags_clear⟩).map
        (fun s => s.factory_func_check) = some ⟨0, 0, 0, 0, 0xFF, 0, 0⟩ ∧
    (cmd_feed (str_bytes "OVERFLOW" ++ [10]) ⟨0, buf, flags_clear⟩).map
        (fun s => s.factory_func_check) = some ⟨0, 0, 0, 0, 0, 0xFF, 0⟩ ∧
    (cmd_feed (str_bytes "TEMPERATUR" ++ [10]) ⟨0, buf, flags_clear⟩).map
        (fun s => s.factory_func_check) = some ⟨0, 0, 0, 0, 0, 0, 0xFF⟩ := by
  refine ⟨?_, ?_, ?_, ?_, ?_, ?_, ?_⟩ <;>
    (rw [cmd_feed_line_flags _ buf flags_clear (by decide) (by decide)]; decide)

/-- C6: for every terminated line of at most 32 bytes, newline included, that does not begin
with any of the seven keywords, feeding it from line index 0 returns with every factory
flag unchanged (and the line index 0 again). -/
theorem unmatched_line_changes_no_flag (body : List Nat) (s : CmdState) (hs : s.len = 0)
    (hnl : ∀ b ∈ body, b ≠ 10) (hcap : body.length + 1 ≤ 32)
    (hkw : ∀ kw ∈ keywords, ¬ (str_bytes kw <+: body ++ [10])) :
    ∃ t, cmd_feed (body ++ [10]) s = some t ∧
      t.factory_func_check = s.factory_func_check ∧ t.len = 0 := by
  refine ⟨_, cmd_feed_line body s hs hnl hcap, ?_, rfl⟩
  obtain ⟨k1, k2, k3, k4, k5, k6, k7⟩ := keywords_clean
  have n1 := strncmp_line_ne "CAN" 3 (by decide) k1 body s.recv_buf
    (hkw _ (by simp [keywords]))
  have n2 := strncmp_line_ne "RS485" 5 (by decide) k2 body s.recv_buf
    (hkw _ (by simp [keywords]))
  have n3 := strncmp_line_ne "PC_COM" 6 (by decide) k3 body s.recv_buf
    (hkw _ (by simp [keywords]))
  have n4 := strncmp_line_ne "CURRENT" 7 (by decide) k4 body s.recv_buf
    (hkw _ (by simp [keywords]))
  have n5 := strncmp_line_ne "VOLTAGE" 7 (by decide) k5 body s.recv_buf
    (hkw _ (by simp [keywords]))
  have n6 := strncmp_line_ne "OVERFLOW" 8 (by decide) k6 body s.recv_buf
    (hkw _ (by simp [keywords]))
  have n7 := strncmp_line_ne "TEMPERATUR" 10 (by decide) k7 body s.recv_buf
    (hkw _ (by simp [keywords]))
  simp only [cmd_match, n1, n2, n3, n4, n5, n6, n7, if_false]

/-- Witness of C6: the truncated keyword "RS4", the lower-case "can" and the empty line, each
fed from the start-up state. -/
theorem unmatched_line_changes_no_flag_witness :
    (∃ t, cmd_feed (str_bytes "RS4" ++ [10]) cmd_init = some t ∧
      t.factory_func_check = cmd_init.factory_func_check ∧ t.len = 0) ∧
    (∃ t, cmd_feed (str_bytes "can" ++ [10]) cmd_init = some t ∧
      t.factory_func_check = cmd_init.factory_func_check ∧ t.len = 0) ∧
    (∃ t, cmd_feed ([] ++ [10]) cmd_init = some t ∧
      t.factory_func_check = cmd_init.factory_func_check ∧ t.len = 0) :=
  ⟨unmatched_line_changes_no_flag (str_bytes "RS4") cmd_init rfl (by decide) (by decide)
      (by decide),
   unmatched_line_changes_no_flag (str_bytes "can") cmd_init rfl (by decide) (by decide)
      (by decide),
   unmatched_line_changes_no_flag [] cmd_init rfl (by decide) (by decide) (by decide)⟩

/-- C7: feeding any 32 bytes none of which is a newline, from line index 0, returns with the
line index reset to 0 and every factory flag unchanged. -/
theorem full_buffer_resets_line (bs : List Nat) (s : CmdState) (hs : s.len = 0)
    (hlen : bs.length = 32) (hnl : ∀ b ∈ bs, b ≠ 10) :
    ∃ t, cmd_feed bs s = some t ∧ t.len = 0 ∧
      t.factory_func_check = s.factory_func_check := by
  obtain ⟨buf, hbuf⟩ := cmd_feed_nonl bs s hnl (by omega)
  refine ⟨_, hbuf, ?_, rfl⟩
  simp only [hs, hlen]

/-- Witness of C7: 32 bytes `x` fed from the start-up state. -/
theorem full_buffer_resets_line_witness :
    ∃ t, cmd_feed (List.replicate 32 120) cmd_init = some t ∧ t.len = 0 ∧
      t.factory_func_check = cmd_init.factory_func_check :=
  full_buffer_resets_line (List.replicate 32 120) cmd_init rfl (by decide) (by decide)

/-- C8 (as stated, refuted): 32 filler bytes `x` followed by the line "CAN", fed from the
start-up state, set the flag `can_sign`. -/
theorem overlong_line_can_set_flag :
    (∀ b ∈ List.replicate 32 120, b ≠ 10) ∧
    (cmd_feed (List.replicate 32 120 ++ (str_bytes "CAN" ++ [10])) cmd_init).map
      (fun s => s.factory_func_check) = some ⟨0xFF, 0, 0, 0, 0, 0, 0⟩ := by
  decide

/-- C8 (amended): of a line longer than the 32-byte capacity only the first 32 bytes are
dropped.  For every 32 bytes without a newline followed by any further bytes, feeding
them from line index 0 leaves the same flags and the same line index as feeding the
further bytes alone: the first 32 bytes set no flag, and what follows them is matched as a
line of its own. -/
theorem overlong_line_drops_first_32 (first rest : List Nat) (s : CmdState) (hs : s.len = 0)
    (hlen : first.length = 32) (hnl : ∀ b ∈ first, b ≠ 10) :
    (cmd_feed (first ++ rest) s).map (fun u => (u.len, u.factory_func_check))
      = (cmd_feed rest s).map (fun u => (u.len, u.factory_func_check)) := by
  obtain ⟨buf, hbuf⟩ := cmd_feed_nonl first s hnl (by omega)
  rw [cmd_feed_append, hbuf, Option.some_bind]
  apply cmd_feed_same_line
  refine ⟨?_, rfl, ?_⟩
  · simp only [hs, hlen]
  · intro i hi
    simp only [hs, hlen] at hi
    exact absurd hi (Nat.not_lt_zero i)

/-- Witness of C8 (amended): 32 filler bytes `x` followed by "XYZ" and a newline leave the
flags and the index as the line "XYZ" alone does. -/
theorem overlong_line_drops_first_32_witness :
    (cmd_feed (List.replicate 32 120 ++ (str_bytes "XYZ" ++ [10])) cmd_init).map
        (fun u => (u.len, u.factory_func_check))
      = (cmd_feed (str_bytes "XYZ" ++ [10]) cmd_init).map
        (fun u => (u.len, u.factory_func_check)) :=
  overlong_line_drops_first_32 (List.replicate 32 120) (str_bytes "XYZ" ++ [10]) cmd_init rfl
    (by decide) (by decide)

/-! ### Claims on the RS-485 echo -/

theorem list_of_length_eight {α : Type} (l : List α) (h : l.length = 8) :
    ∃ a b c d e f g k, l = [a, b, c, d, e, f, g, k] := by
  match l, h with
  | [a, b, c, d, e, f, g, k], _ => exact ⟨a, b, c, d, e, f, g, k, rfl⟩

/-- Receive interrupts with data ready that stay inside the array store their bytes one
after the other. -/
theorem rs485_recv_run (irqs : List UartIrq) (s : Rs485State)
    (hrx : ∀ q ∈ irqs, q.rxdne = true) (hcap : s.findex + irqs.length ≤ 1024) :
    rs485_recv irqs s
      = some ⟨s.findex + irqs.length,
          buf_write s.rs485_recv_buf s.findex (irqs.map (fun q => q.dat % 256))⟩ := by
  induction irqs generalizing s with
  | nil => rfl
  | cons q qs ih =>
    have hq := hrx q (List.mem_cons_self _ _)
    have hl : (q :: qs).length = qs.length + 1 := rfl
    have h1 : s.findex < 1024 := by omega
    have h2 : (s.findex + 1) % 2 ^ 32 = s.findex + 1 := by omega
    simp only [rs485_recv, bsp_uart_rs485_com_irq_cb, hq, if_true, h1, h2, Option.some_bind]
    rw [ih _ (fun r hr => hrx r (List.mem_cons_of_mem _ hr)) (by simp only []; omega)]
    simp only [List.map_cons, buf_write, hl]
    have e : s.findex + 1 + qs.length = s.findex + (qs.length + 1) := by omega
    rw [e]

/-- On `RS485_COM` the transmit routine is: transmit-enable, the first delay, the bytes,
the second delay, receive-enable, each step run only if the one before returned. -/
theorem send_data_rs485 (data : Nat → Nat) (len : Nat) (clk : TickReads) :
    bsp_uart_send_data RS485_COM data len clk
      = ((SendResult.returned [Effect.rs485_send_enable]).andThen
          (delay_call 1 clk.tick1 clk.fuel)).andThen
        ((SendResult.returned ((List.range len).flatMap
            (fun i => [Effect.send_data RS485_UART (data i), Effect.wait_txde RS485_UART]))).andThen
          ((delay_call 1 clk.tick2 clk.fuel).andThen
            (SendResult.returned [Effect.rs485_recv_enable]))) := by
  simp [bsp_uart_send_data]

/-- A `bsp_delay_ms(1)` entered at least two ticks before the counter wraps returns after
two ticks, given that much fuel. -/
theorem delay_call_in_range (c fuel : Nat) (h : c + 2 < 2 ^ 32) (hf : 2 ≤ fuel) :
    delay_call 1 c fuel = SendResult.returned [Effect.delay_ms 1 2] := by
  simp [delay_call, BspSystick.delay_in_range 1 c fuel h hf]

/-- A `bsp_delay_ms(1)` entered when the counter reads `2 ^ 32 - 2` is still spinning after
any number of ticks. -/
theorem delay_call_stuck (fuel : Nat) : delay_call 1 (2 ^ 32 - 2) fuel = SendResult.spinning [] := by
  unfold delay_call
  rw [BspSystick.delay_deadline_max 1 (2 ^ 32 - 2) fuel (by decide) (by decide)]

/-- A `bsp_delay_ms(1)` entered when the counter reads `2 ^ 32 - 1` returns after 0 ticks. -/
theorem delay_call_skipped (fuel : Nat) :
    delay_call 1 (2 ^ 32 - 1) fuel = SendResult.returned [Effect.delay_ms 1 0] := by
  unfold delay_call
  rw [BspSystick.delay_deadline_wrapped 1 (2 ^ 32 - 1) fuel (by decide)]

/-- The echo when both delays are entered away from the wrap of the tick counter: for
every 8 bytes delivered one per receive interrupt (receive-data-ready set) to
`bsp_uart_rs485_com_irq_cb` starting from index 0, the callbacks return with index 8, and a
following `bsp_uart_factory_rs485_check` whose two delays are entered at least two ticks
before the counter wraps returns with exactly this trace: transmit-enable, a delay of two
ticks, the 8 bytes in order on the RS-485 UART (each followed by the wait for
transmit-ready), a delay of two ticks, receive-enable; it leaves the index 0. -/
theorem rs485_eight_bytes_echoed (irqs : List UartIrq) (s : Rs485State) (clk : TickReads)
    (hs : s.findex = 0) (hlen : irqs.length = 8) (hrx : ∀ q ∈ irqs, q.rxdne = true)
    (hbyte : ∀ q ∈ irqs, q.dat < 256)
    (h1 : clk.tick1 + 2 < 2 ^ 32) (h2 : clk.tick2 + 2 < 2 ^ 32) (hf : 2 ≤ clk.fuel) :
    ∃ t tr, rs485_recv irqs s = some t ∧ t.findex = 8 ∧
      bsp_uart_factory_rs485_check clk t = some (⟨0, t.rs485_recv_buf⟩, tr) ∧
      tr = [Effect.rs485_send_enable, Effect.delay_ms 1 2]
            ++ irqs.flatMap
                (fun q => [Effect.send_data RS485_UART q.dat, Effect.wait_txde RS485_UART])
            ++ [Effect.delay_ms 1 2, Effect.rs485_recv_enable] ∧
      sent_on RS485_UART tr = irqs.map (fun q => q.dat) := by
  have hrun := rs485_recv_run irqs s hrx (by omega)
  rw [hs, hlen] at hrun
  obtain ⟨q1, q2, q3, q4, q5, q6, q7, q8, rfl⟩ := list_of_length_eight irqs hlen
  simp only [List.mem_cons, List.mem_singleton, forall_eq_or_imp, forall_eq, List.not_mem_nil,
    false_implies, implies_true, and_true] at hbyte
  obtain ⟨b1, b2, b3, b4, b5, b6, b7, b8⟩ := hbyte
  have m1 := Nat.mod_eq_of_lt b1
  have m2 := Nat.mod_eq_of_lt b2
  have m3 := Nat.mod_eq_of_lt b3
  have m4 := Nat.mod_eq_of_lt b4
  have m5 := Nat.mod_eq_of_lt b5
  have m6 := Nat.mod_eq_of_lt b6
  have m7 := Nat.mod_eq_of_lt b7
  have m8 := Nat.mod_eq_of_lt b8
  refine ⟨_, _, hrun, rfl, ?_, rfl, ?_⟩
  · simp [bsp_uart_factory_rs485_check, send_data_rs485, delay_call_in_range _ _ h1 hf,
      delay_call_in_range _ _ h2 hf, SendResult.andThen, SendResult.trace,
      List.range, List.range.loop, buf_write, buf_set, m1, m2, m3, m4, m5, m6, m7, m8]
  · simp [sent_on]

/-- C9 (code defect): the bytes 0x01 to 0x08 are received from index 0, which leaves the
index 8, and `bsp_uart_factory_rs485_check` is called.  If its first `bsp_delay_ms(1)` is
entered when the tick counter reads `2 ^ 32 - 2`, then whatever the fuel the transmit
routine is stuck in that delay with transmit-enable as its only action: no byte is sent
and the check does not return, so the index is not reset.  If the second
`bsp_delay_ms(1)` is entered at that count, the 8 bytes have been sent but the routine is
stuck before receive-enable, and again the check does not return. -/
theorem rs485_echo_stuck_in_delay :
    ∃ t, rs485_recv ((List.range 8).map (fun i => ⟨true, false, false, i + 1⟩))
        ⟨0, fun _ => 0⟩ = some t ∧ t.findex = 8 ∧
      (∀ tick2 fuel,
        bsp_uart_send_data RS485_COM t.rs485_recv_buf 8 ⟨2 ^ 32 - 2, tick2, fuel⟩
          = SendResult.spinning [Effect.rs485_send_enable] ∧
        bsp_uart_factory_rs485_check ⟨2 ^ 32 - 2, tick2, fuel⟩ t = none) ∧
      (∀ fuel,
        bsp_uart_send_data RS485_COM t.rs485_recv_buf 8 ⟨100, 2 ^ 32 - 2, fuel + 2⟩
          = SendResult.spinning
              ([Effect.rs485_send_enable, Effect.delay_ms 1 2]
                ++ (List.range 8).flatMap
                    (fun i => [Effect.send_data RS485_UART (i + 1),
                      Effect.wait_txde RS485_UART])) ∧
        bsp_uart_factory_rs485_check ⟨100, 2 ^ 32 - 2, fuel + 2⟩ t = none) := by
  refine ⟨_, rfl, rfl, ?_, ?_⟩
  · intro tick2 fuel
    have h : bsp_uart_send_data RS485_COM
        (buf_write (fun _ => 0) 0 (((List.range 8).map
          (fun i => (⟨true, false, false, i + 1⟩ : UartIrq))).map (fun q => q.dat % 256))) 8
        ⟨2 ^ 32 - 2, tick2, fuel⟩ = SendResult.spinning [Effect.rs485_send_enable] := by
      rw [send_data_rs485]
      simp only [delay_call_stuck]
      rfl
    exact ⟨h, by
      show bsp_uart_factory_rs485_check ⟨2 ^ 32 - 2, tick2, fuel⟩
        ⟨8, buf_write (fun _ => 0) 0 (((List.range 8).map
          (fun i => (⟨true, false, false, i + 1⟩ : UartIrq))).map (fun q => q.dat % 256))⟩ = none
      simp only [bsp_uart_factory_rs485_check, if_true, h]
      rfl⟩
  · intro fuel
    have h : bsp_uart_send_data RS485_COM
        (buf_write (fun _ => 0) 0 (((List.range 8).map
          (fun i => (⟨true, false, false, i + 1⟩ : UartIrq))).map (fun q => q.dat % 256))) 8
        ⟨100, 2 ^ 32 - 2, fuel + 2⟩
        = SendResult.spinning
            ([Effect.rs485_send_enable, Effect.delay_ms 1 2]
              ++ (List.range 8).flatMap
                  (fun i => [Effect.send_data RS485_UART (i + 1),
                    Effect.wait_txde RS485_UART])) := by
      rw [send_data_rs485]
      simp only [delay_call_stuck,
        delay_call_in_range 100 (fuel + 2) (by decide) (Nat.le_add_left 2 fuel)]
      rfl
    exact ⟨h, by
      show bsp_uart_factory_rs485_check ⟨100, 2 ^ 32 - 2, fuel + 2⟩
        ⟨8, buf_write (fun _ => 0) 0 (((List.range 8).map
          (fun i => (⟨true, false, false, i + 1⟩ : UartIrq))).map (fun q => q.dat % 256))⟩ = none
      simp only [bsp_uart_factory_rs485_check, if_true, h]
      rfl⟩

/-- C10: for every state of the RS-485 accumulator whose index is not 8, and whatever the
tick counter shows, `bsp_uart_factory_rs485_check` returns with an empty trace and leaves
the index and the buffer as they were. -/
theorem rs485_check_idle (clk : TickReads) (s : Rs485State) (h : s.findex ≠ 8) :
    bsp_uart_factory_rs485_check clk s = some (s, []) := by
  simp [bsp_uart_factory_rs485_check, h]

/-- Witness of C10: after 7 bytes received from index 0 the check does nothing. -/
theorem rs485_check_idle_witness :
    ∃ t, rs485_recv ((List.range 7).map (fun i => ⟨true, false, false, i + 1⟩))
        ⟨0, fun _ => 0⟩ = some t ∧ t.findex = 7 ∧
      ∀ clk, bsp_uart_factory_rs485_check clk t = some (t, []) :=
  ⟨_, rfl, rfl, fun clk => rs485_check_idle clk _ (by decide)⟩

/-! ### Claims on the RS-485 index, the transmit routine and the host echo -/

theorem rs485_recv_append (a b : List UartIrq) (s : Rs485State) :
    rs485_recv (a ++ b) s = (rs485_recv a s).bind (rs485_recv b) := by
  induction a generalizing s with
  | nil => rfl
  | cons q qs ih =>
    simp only [List.cons_append, rs485_recv]
    cases bsp_uart_rs485_com_irq_cb q s with
    | none => rfl
    | some t => simp [ih]

/-- C11 (code defect): 1024 receive interrupts with data ready, from index 0, leave the index
at 1024; a flush check there does nothing; and the next receive interrupt stores at
`rs485_recv_buf[1024]`, outside the array, which the embedding reports as `none`.  So the
run of 1025 receive interrupts is not defined. -/
theorem rs485_index_overruns :
    ∃ t, rs485_recv (List.replicate 1024 ⟨true, false, false, 0xAA⟩) ⟨0, fun _ => 0⟩ = some t ∧
      t.findex = 1024 ∧
      (∀ clk, bsp_uart_factory_rs485_check clk t = some (t, [])) ∧
      bsp_uart_rs485_com_irq_cb ⟨true, false, false, 0xAA⟩ t = none ∧
      rs485_recv (List.replicate 1024 ⟨true, false, false, 0xAA⟩ ++ [⟨true, false, false, 0xAA⟩])
        ⟨0, fun _ => 0⟩ = none := by
  have hrun := rs485_recv_run (List.replicate 1024 ⟨true, false, false, 0xAA⟩)
    ⟨0, fun _ => 0⟩
    (by intro q hq; rw [List.eq_of_mem_replicate hq])
    (by rw [List.length_replicate])
  rw [List.length_replicate] at hrun
  generalize buf_write (fun _ => 0) 0
    (List.map (fun q : UartIrq => q.dat % 256)
      (List.replicate 1024 ⟨true, false, false, 0xAA⟩)) = B at hrun
  have hcb : bsp_uart_rs485_com_irq_cb ⟨true, false, false, 0xAA⟩ ⟨0 + 1024, B⟩ = none := by
    simp [bsp_uart_rs485_com_irq_cb]
  refine ⟨⟨0 + 1024, B⟩, hrun, rfl, ?_, hcb, ?_⟩
  · intro clk
    simp [bsp_uart_factory_rs485_check]
  · rw [rs485_recv_append, hrun]
    simp only [Option.some_bind, rs485_recv, hcb, Option.none_bind]

/-- The transmit routine when both delays are entered away from the wrap of the tick
counter: for every data buffer and every length `len`, `bsp_uart_send_data` on `RS485_COM`
whose two delays are entered at least two ticks before the counter wraps returns with
exactly: transmit-enable, a delay of two ticks, `data[0 .. len)` in order on the RS-485
UART, each byte followed by the wait for transmit-ready, a delay of two ticks,
receive-enable.  On `DEBUG_COM` and `HOST_COMPUTER_COM`, whatever the counter shows, it
returns with only the byte sends and their waits, on the UART of the channel: no action
of the trace switches the direction or is a delay. -/
theorem send_data_effects (data : Nat → Nat) (len : Nat) (clk : TickReads) :
    (clk.tick1 + 2 < 2 ^ 32 → clk.tick2 + 2 < 2 ^ 32 → 2 ≤ clk.fuel →
      bsp_uart_send_data RS485_COM data len clk
        = SendResult.returned ([Effect.rs485_send_enable, Effect.delay_ms 1 2]
            ++ (List.range len).flatMap
                (fun i => [Effect.send_data RS485_UART (data i), Effect.wait_txde RS485_UART])
            ++ [Effect.delay_ms 1 2, Effect.rs485_recv_enable])) ∧
    bsp_uart_send_data DEBUG_COM data len clk
      = SendResult.returned ((List.range len).flatMap
          (fun i => [Effect.send_data DEBUG_UART (data i), Effect.wait_txde DEBUG_UART])) ∧
    bsp_uart_send_data HOST_COMPUTER_COM data len clk
      = SendResult.returned ((List.range len).flatMap
          (fun i => [Effect.send_data HOST_COMPUTER_UART (data i),
            Effect.wait_txde HOST_COMPUTER_UART])) ∧
    (∀ e ∈ (List.range len).flatMap
        (fun i => [Effect.send_data DEBUG_UART (data i), Effect.wait_txde DEBUG_UART]),
      e.is_turnaround = false) ∧
    (∀ e ∈ (List.range len).flatMap
        (fun i => [Effect.send_data HOST_COMPUTER_UART (data i),
          Effect.wait_txde HOST_COMPUTER_UART]),
      e.is_turnaround = false) := by
  have hbody : ∀ (u : USART_Module), ∀ e ∈ (List.range len).flatMap
      (fun i => [Effect.send_data u (data i), Effect.wait_txde u]),
      e.is_turnaround = false := by
    intro u e he
    simp only [List.mem_flatMap, List.mem_cons, List.mem_singleton, List.not_mem_nil,
      or_false] at he
    obtain ⟨j, _, hj | hj⟩ := he <;> rw [hj] <;> rfl
  refine ⟨?_, ?_, ?_, hbody DEBUG_UART, hbody HOST_COMPUTER_UART⟩
  · intro h1 h2 hf
    rw [send_data_rs485, delay_call_in_range _ _ h1 hf, delay_call_in_range _ _ h2 hf]
    simp [SendResult.andThen]
  · simp [bsp_uart_send_data, SendResult.andThen]
  · simp [bsp_uart_send_data, SendResult.andThen]

/-- C12 (code defect): `bsp_uart_send_data` on `RS485_COM` with the three bytes 1, 2, 3.
If the first `bsp_delay_ms(1)` is entered when the tick counter reads `2 ^ 32 - 2`, the
routine is stuck in it, whatever the fuel, with transmit-enable as its only action: no
byte is sent and receive-enable never follows.  If the second one is entered at that
count, the routine is stuck after the bytes, before receive-enable.  If a delay is entered
when the counter reads `2 ^ 32 - 1` it lasts 0 ticks: the routine returns with the
sequence of the claim, but with no wait between transmit-enable and the first byte, or
between the last byte and receive-enable. -/
theorem send_data_delay_fails_at_wrap :
    (∀ tick2 fuel,
      bsp_uart_send_data RS485_COM (fun i => i + 1) 3 ⟨2 ^ 32 - 2, tick2, fuel⟩
        = SendResult.spinning [Effect.rs485_send_enable]) ∧
    (∀ fuel,
      bsp_uart_send_data RS485_COM (fun i => i + 1) 3 ⟨100, 2 ^ 32 - 2, fuel + 2⟩
        = SendResult.spinning
            [Effect.rs485_send_enable, Effect.delay_ms 1 2,
             Effect.send_data RS485_UART 1, Effect.wait_txde RS485_UART,
             Effect.send_data RS485_UART 2, Effect.wait_txde RS485_UART,
             Effect.send_data RS485_UART 3, Effect.wait_txde RS485_UART]) ∧
    (∀ fuel,
      bsp_uart_send_data RS485_COM (fun i => i + 1) 3 ⟨2 ^ 32 - 1, 100, fuel + 2⟩
        = SendResult.returned
            [Effect.rs485_send_enable, Effect.delay_ms 1 0,
             Effect.send_data RS485_UART 1, Effect.wait_txde RS485_UART,
             Effect.send_data RS485_UART 2, Effect.wait_txde RS485_UART,
             Effect.send_data RS485_UART 3, Effect.wait_txde RS485_UART,
             Effect.delay_ms 1 2, Effect.rs485_recv_enable]) ∧
    (∀ fuel,
      bsp_uart_send_data RS485_COM (fun i => i + 1) 3 ⟨100, 2 ^ 32 - 1, fuel + 2⟩
        = SendResult.returned
            [Effect.rs485_send_enable, Effect.delay_ms 1 2,
             Effect.send_data RS485_UART 1, Effect.wait_txde RS485_UART,
             Effect.send_data RS485_UART 2, Effect.wait_txde RS485_UART,
             Effect.send_data RS485_UART 3, Effect.wait_txde RS485_UART,
             Effect.delay_ms 1 0, Effect.rs485_recv_enable]) := by
  have hin : ∀ fuel, delay_call 1 100 (fuel + 2) = SendResult.returned [Effect.delay_ms 1 2] :=
    fun fuel => delay_call_in_range 100 (fuel + 2) (by decide) (Nat.le_add_left 2 fuel)
  refine ⟨?_, ?_, ?_, ?_⟩
  · intro tick2 fuel
    rw [send_data_rs485]
    simp only [delay_call_stuck]
    rfl
  · intro fuel
    rw [send_data_rs485]
    simp only [delay_call_stuck, hin]
    rfl
  · intro fuel
    rw [send_data_rs485]
    simp only [delay_call_skipped, hin]
    rfl
  · intro fuel
    rw [send_data_rs485]
    simp only [delay_call_skipped, hin]
    rfl

/-- C13 (code defect): the three calls of `bsp_uart_init` in `main` all return, and leave
the callback table with the RS-485 callback in `debug_com_cb` and the two other slots
null.  `UART4_IRQHandler` therefore calls the RS-485 callback, and `UART5_IRQHandler` and
`USART3_IRQHandler` call through a null pointer. -/
theorem main_init_fills_only_debug_slot :
    main_uart_init = InitResult.returned ⟨some IrqCb.rs485_com, none, none⟩ ∧
    UART4_IRQHandler ⟨some IrqCb.rs485_com, none, none⟩ = some IrqCb.rs485_com ∧
    UART5_IRQHandler ⟨some IrqCb.rs485_com, none, none⟩ = none ∧
    USART3_IRQHandler ⟨some IrqCb.rs485_com, none, none⟩ = none := by
  decide

/-- C14: for every byte `b` and whatever the tick counter shows, a call of
`bsp_uart_host_computer_com_irq_cb` with
receive-data-ready set and `b` in the data register performs the send of the one byte `b`
on the host-computer UART and the wait for transmit-ready (then the two register reads
that clear an overrun, if one is flagged): it transmits `b` on that UART and nothing on
the two others, and no action switches the RS-485 direction or is a delay.  With
receive-data-ready clear it transmits nothing on any UART. -/
theorem host_echo (irq : UartIrq) (clk : TickReads) :
    (irq.rxdne = true → irq.dat < 256 →
      ∃ tr, bsp_uart_host_computer_com_irq_cb irq clk = some tr ∧
        tr = [Effect.send_data HOST_COMPUTER_UART irq.dat, Effect.wait_txde HOST_COMPUTER_UART]
              ++ oref_clear HOST_COMPUTER_UART irq.oref ∧
        sent_on HOST_COMPUTER_UART tr = [irq.dat] ∧
        sent_on DEBUG_UART tr = [] ∧ sent_on RS485_UART tr = [] ∧
        ∀ e ∈ tr, e.is_turnaround = false) ∧
    (irq.rxdne = false →
      ∃ tr, bsp_uart_host_computer_com_irq_cb irq clk = some tr ∧
        tr = oref_clear HOST_COMPUTER_UART irq.oref ∧
        ∀ u, sent_on u tr = []) := by
  constructor
  · intro hrx hb
    have hm : irq.dat % 256 = irq.dat := Nat.mod_eq_of_lt hb
    refine ⟨_, ?_, rfl, ?_, ?_, ?_, ?_⟩
    · simp [bsp_uart_host_computer_com_irq_cb, hrx, hm, bsp_uart_send_data,
        SendResult.andThen, SendResult.trace, List.range, List.range.loop]
    · cases irq.oref <;> simp [sent_on, oref_clear]
    · cases irq.oref <;> simp [sent_on, oref_clear]
    · cases irq.oref <;> simp [sent_on, oref_clear]
    · cases irq.oref <;> simp [oref_clear, Effect.is_turnaround]
  · intro hrx
    refine ⟨_, ?_, rfl, ?_⟩
    · simp [bsp_uart_host_computer_com_irq_cb, hrx]
    · intro u
      cases irq.oref <;> simp [sent_on, oref_clear]

/-- Witness of C14: the byte 0x5A received with an overrun flagged, and a call with
receive-data-ready clear, while the tick counter reads 100. -/
theorem host_echo_witness :
    (∃ tr, bsp_uart_host_computer_com_irq_cb ⟨true, false, true, 0x5A⟩ ⟨100, 100, 2⟩
          = some tr ∧
        tr = [Effect.send_data HOST_COMPUTER_UART 0x5A, Effect.wait_txde HOST_COMPUTER_UART]
              ++ oref_clear HOST_COMPUTER_UART true ∧
        sent_on HOST_COMPUTER_UART tr = [0x5A] ∧
        sent_on DEBUG_UART tr = [] ∧ sent_on RS485_UART tr = [] ∧
        ∀ e ∈ tr, e.is_turnaround = false) ∧
    (∃ tr, bsp_uart_host_computer_com_irq_cb ⟨false, false, false, 0x5A⟩ ⟨100, 100, 2⟩
          = some tr ∧
        tr = oref_clear HOST_COMPUTER_UART false ∧
        ∀ u, sent_on u tr = []) :=
  ⟨(host_echo ⟨true, false, true, 0x5A⟩ ⟨100, 100, 2⟩).1 rfl (by decide),
   (host_echo ⟨false, false, false, 0x5A⟩ ⟨100, 100, 2⟩).2 rfl⟩

/-! ### Claims on the flags and on the initialisation -/

theorem flags_kept_refl (f : factory_func_check_t) : flags_kept f f :=
  ⟨id, id, id, id, id, id, id⟩

theorem flags_kept_trans (f g h : factory_func_check_t) (a : flags_kept f g)
    (b : flags_kept g h) : flags_kept f h :=
  ⟨fun x => b.1 (a.1 x), fun x => b.2.1 (a.2.1 x), fun x => b.2.2.1 (a.2.2.1 x),
    fun x => b.2.2.2.1 (a.2.2.2.1 x), fun x => b.2.2.2.2.1 (a.2.2.2.2.1 x),
    fun x => b.2.2.2.2.2.1 (a.2.2.2.2.2.1 x), fun x => b.2.2.2.2.2.2 (a.2.2.2.2.2.2 x)⟩

theorem flags_kept_ite (c : Prop) [Decidable c] (f g g2 : factory_func_check_t)
    (h : flags_kept f g) (h2 : flags_kept g g2) : flags_kept f (if c then g2 else g) := by
  split_ifs
  · exact flags_kept_trans _ _ _ h h2
  · exact h

/-- The keyword tests only ever store 0xFF in a flag. -/
theorem cmd_match_kept (buf : Nat → Nat) (f : factory_func_check_t) :
    flags_kept f (cmd_match buf f) := by
  unfold cmd_match
  simp only []
  apply flags_kept_ite
  · apply flags_kept_ite
    · apply flags_kept_ite
      · apply flags_kept_ite
        · apply flags_kept_ite
          · apply flags_kept_ite
            · apply flags_kept_ite
              · exact flags_kept_refl f
              · exact ⟨fun _ => rfl, id, id, id, id, id, id⟩
            · exact ⟨id, fun _ => rfl, id, id, id, id, id⟩
          · exact ⟨id, id, fun _ => rfl, id, id, id, id⟩
        · exact ⟨id, id, id, fun _ => rfl, id, id, id⟩
      · exact ⟨id, id, id, id, fun _ => rfl, id, id⟩
    · exact ⟨id, id, id, id, id, fun _ => rfl, id⟩
  · exact ⟨id, id, id, id, id, id, fun _ => rfl⟩

/-- One call from a line index below 32 returns, with a line index below 32 and every set
flag still set. -/
theorem analyse_kept (d : Nat) (s : CmdState) (hs : s.len < 32) :
    ∃ t, bsp_uart_factory_cmd_analyse d s = some t ∧ t.len < 32 ∧
      flags_kept s.factory_func_check t.factory_func_check := by
  by_cases hd : d = 10
  · subst hd
    exact ⟨_, analyse_newline s hs, Nat.zero_lt_succ 31, cmd_match_kept _ _⟩
  · exact ⟨_, analyse_nonl d s hd hs, Nat.mod_lt _ (by decide), flags_kept_refl _⟩

/-- C15: the factory flags are sticky.  For every state of the recogniser with its line
index inside the buffer and every input byte, `bsp_uart_factory_cmd_analyse` returns and
a flag that equals 0xFF before the call equals 0xFF after it; so over any byte sequence
the calls return and the set of set flags only grows. -/
theorem factory_flags_sticky (s : CmdState) (hs : s.len < 32) :
    (∀ d, ∃ t, bsp_uart_factory_cmd_analyse d s = some t ∧
      flags_kept s.factory_func_check t.factory_func_check) ∧
    (∀ bs, ∃ t, cmd_feed bs s = some t ∧
      flags_kept s.factory_func_check t.factory_func_check) := by
  constructor
  · intro d
    obtain ⟨t, h1, _, h3⟩ := analyse_kept d s hs
    exact ⟨t, h1, h3⟩
  · intro bs
    have key : ∀ (l : List Nat) (u : CmdState), u.len < 32 →
        ∃ t, cmd_feed l u = some t ∧ flags_kept u.factory_func_check t.factory_func_check := by
      intro l
      induction l with
      | nil => intro u _; exact ⟨u, rfl, flags_kept_refl _⟩
      | cons d ds ih =>
        intro u hu
        obtain ⟨v, h1, h2, h3⟩ := analyse_kept d u hu
        obtain ⟨t, h4, h5⟩ := ih v h2
        refine ⟨t, ?_, flags_kept_trans _ _ _ h3 h5⟩
        simp only [cmd_feed, h1, Option.some_bind, h4]
    exact key bs s hs

/-- Witness of C15: from the start-up state with `rs485_sign` already set, the byte `C` and
the line "CAN". -/
theorem factory_flags_sticky_witness :
    (∀ d, ∃ t, bsp_uart_factory_cmd_analyse d ⟨0, fun _ => 0, ⟨0, 0xFF, 0, 0, 0, 0, 0⟩⟩ = some t ∧
      flags_kept (⟨0, 0xFF, 0, 0, 0, 0, 0⟩ : factory_func_check_t) t.factory_func_check) ∧
    (∀ bs, ∃ t, cmd_feed bs ⟨0, fun _ => 0, ⟨0, 0xFF, 0, 0, 0, 0, 0⟩⟩ = some t ∧
      flags_kept (⟨0, 0xFF, 0, 0, 0, 0, 0⟩ : factory_func_check_t) t.factory_func_check) :=
  factory_flags_sticky ⟨0, fun _ => 0, ⟨0, 0xFF, 0, 0, 0, 0, 0⟩⟩ (by decide)

/-- C16: for every channel number, baud rate and callback table, `bsp_uart_init` called with
a null callback never returns and leaves the callback table as it was; called with a
non-null callback it returns, for each of the three channels (and also for a number that
names no channel). -/
theorem uart_init_null_callback_halts (com baud : Nat) (tbl : com_irq_cb_t) :
    bsp_uart_init com baud none tbl = InitResult.halted tbl ∧
    (∀ cb, ∃ tbl2, bsp_uart_init com baud (some cb) tbl = InitResult.returned tbl2) ∧
    (∀ cb, ∃ tbl2, bsp_uart_init DEBUG_COM baud (some cb) tbl = InitResult.returned tbl2) ∧
    (∀ cb, ∃ tbl2,
      bsp_uart_init HOST_COMPUTER_COM baud (some cb) tbl = InitResult.returned tbl2) ∧
    (∀ cb, ∃ tbl2, bsp_uart_init RS485_COM baud (some cb) tbl = InitResult.returned tbl2) := by
  refine ⟨rfl, ?_, fun _ => ⟨_, rfl⟩, fun _ => ⟨_, rfl⟩, fun _ => ⟨_, rfl⟩⟩
  intro cb
  simp only [bsp_uart_init]
  split_ifs <;> exact ⟨_, rfl⟩

/-! ### The flags after the keyword tests -/

/-- Seven conditional stores of 0xFF, one per flag, leave each flag 0xFF if its condition
holds and as it was otherwise. -/
theorem seven_stores (c1 c2 c3 c4 c5 c6 c7 : Prop) [Decidable c1] [Decidable c2]
    [Decidable c3] [Decidable c4] [Decidable c5] [Decidable c6] [Decidable c7]
    (f : factory_func_check_t) :
    (let f := if c1 then { f with can_sign := 0xFF } else f
     let f := if c2 then { f with rs485_sign := 0xFF } else f
     let f := if c3 then { f with pc_com_sign := 0xFF } else f
     let f := if c4 then { f with current_sign := 0xFF } else f
     let f := if c5 then { f with voltage_sign := 0xFF } else f
     let f := if c6 then { f with overflow_sign := 0xFF } else f
     let f := if c7 then { f with temperatur_sign := 0xFF } else f
     f)
    = ⟨if c1 then 0xFF else f.can_sign, if c2 then 0xFF else f.rs485_sign,
        if c3 then 0xFF else f.pc_com_sign, if c4 then 0xFF else f.current_sign,
        if c5 then 0xFF else f.voltage_sign, if c6 then 0xFF else f.overflow_sign,
        if c7 then 0xFF else f.temperatur_sign⟩ := by
  by_cases h1 : c1 <;> by_cases h2 : c2 <;> by_cases h3 : c3 <;> by_cases h4 : c4 <;>
    by_cases h5 : c5 <;> by_cases h6 : c6 <;> by_cases h7 : c7 <;>
    simp only [h1, h2, h3, h4, h5, h6, h7, if_true, if_false]

/-- The flags after the seven keyword tests, flag by flag. -/
theorem cmd_match_fields (buf : Nat → Nat) (f : factory_func_check_t) :
    cmd_match buf f
      = ⟨if strncmp buf (c_str "CAN") 3 = 0 then 0xFF else f.can_sign,
          if strncmp buf (c_str "RS485") 5 = 0 then 0xFF else f.rs485_sign,
          if strncmp buf (c_str "PC_COM") 6 = 0 then 0xFF else f.pc_com_sign,
          if strncmp buf (c_str "CURRENT") 7 = 0 then 0xFF else f.current_sign,
          if strncmp buf (c_str "VOLTAGE") 7 = 0 then 0xFF else f.voltage_sign,
          if strncmp buf (c_str "OVERFLOW") 8 = 0 then 0xFF else f.overflow_sign,
          if strncmp buf (c_str "TEMPERATUR") 10 = 0 then 0xFF else f.temperatur_sign⟩ :=
  seven_stores _ _ _ _ _ _ _ f

/-! ### Claims on the matching by leading keyword -/

/-- On a stored line that begins with the keyword, the test of the keyword succeeds. -/
theorem strncmp_line_eq (kw : String) (n : Nat) (hn : n = (str_bytes kw).length)
    (hkw : ∀ i, i < n → c_str kw i ≠ 0 ∧ c_str kw i ≠ 10)
    (rest : List Nat) (buf : Nat → Nat) :
    strncmp (buf_write buf 0 (str_bytes kw ++ rest)) (c_str kw) n = 0 := by
  rw [strncmp_eq_zero_iff n _ _ (fun i hi => (hkw i hi).1)]
  intro i hi
  have hi2 : i < (str_bytes kw ++ rest).length := by
    rw [List.length_append]; omega
  have h := buf_write_get (str_bytes kw ++ rest) buf 0 i hi2
  rw [Nat.zero_add] at h
  rw [h, List.getD_append _ _ _ _ (by omega)]
  rfl

/-- No keyword contains a newline. -/
theorem keywords_no_newline : ∀ kw ∈ keywords, ∀ b ∈ str_bytes kw, b ≠ 10 := by
  decide

/-- C21: matching is by leading keyword, case-sensitive.  For every keyword `kw` and every
suffix free of newline with `|kw| + |suffix| + 1 ≤ 32`, feeding `kw`, the suffix and a
newline from line index 0 (whatever the buffer and the flags hold) returns with the flag
of `kw` equal to 0xFF. -/
theorem keyword_with_suffix_sets_flag (kw : String) (hkw : kw ∈ keywords) (sfx : List Nat)
    (hnl : ∀ b ∈ sfx, b ≠ 10) (hcap : (str_bytes kw).length + sfx.length + 1 ≤ 32)
    (buf : Nat → Nat) (f : factory_func_check_t) :
    ∃ t, cmd_feed (str_bytes kw ++ sfx ++ [10]) ⟨0, buf, f⟩ = some t ∧
      flag_of kw t.factory_func_check = 0xFF := by
  have hbody : ∀ b ∈ str_bytes kw ++ sfx, b ≠ 10 := by
    intro b hb
    rcases List.mem_append.mp hb with h | h
    · exact keywords_no_newline kw hkw b h
    · exact hnl b h
  have hlen : (str_bytes kw ++ sfx).length + 1 ≤ 32 := by
    rw [List.length_append]; exact hcap
  refine ⟨_, cmd_feed_line (str_bytes kw ++ sfx) ⟨0, buf, f⟩ rfl hbody hlen, ?_⟩
  obtain ⟨k1, k2, k3, k4, k5, k6, k7⟩ := keywords_clean
  simp only [List.append_assoc, cmd_match_fields]
  simp only [keywords, List.mem_cons, List.mem_singleton, List.not_mem_nil, or_false] at hkw
  rcases hkw with rfl | rfl | rfl | rfl | rfl | rfl | rfl
  · have e := strncmp_line_eq "CAN" 3 (by decide) k1 (sfx ++ [10]) buf
    simp [flag_of, e]
  · have e := strncmp_line_eq "RS485" 5 (by decide) k2 (sfx ++ [10]) buf
    simp [flag_of, e]
  · have e := strncmp_line_eq "PC_COM" 6 (by decide) k3 (sfx ++ [10]) buf
    simp [flag_of, e]
  · have e := strncmp_line_eq "CURRENT" 7 (by decide) k4 (sfx ++ [10]) buf
    simp [flag_of, e]
  · have e := strncmp_line_eq "VOLTAGE" 7 (by decide) k5 (sfx ++ [10]) buf
    simp [flag_of, e]
  · have e := strncmp_line_eq "OVERFLOW" 8 (by decide) k6 (sfx ++ [10]) buf
    simp [flag_of, e]
  · have e := strncmp_line_eq "TEMPERATUR" 10 (by decide) k7 (sfx ++ [10]) buf
    simp [flag_of, e]

/-- Witness of C21: the lines "TEMPERATUR" and "TEMPERATURE" fed from the start-up state. -/
theorem keyword_with_suffix_sets_flag_witness :
    (∃ t, cmd_feed (str_bytes "TEMPERATUR" ++ [] ++ [10]) ⟨0, fun _ => 0, flags_clear⟩ = some t ∧
      flag_of "TEMPERATUR" t.factory_func_check = 0xFF) ∧
    (∃ t, cmd_feed (str_bytes "TEMPERATUR" ++ str_bytes "E" ++ [10])
        ⟨0, fun _ => 0, flags_clear⟩ = some t ∧
      flag_of "TEMPERATUR" t.factory_func_check = 0xFF) :=
  ⟨keyword_with_suffix_sets_flag "TEMPERATUR" (by decide) [] (by decide) (by decide)
      (fun _ => 0) flags_clear,
   keyword_with_suffix_sets_flag "TEMPERATUR" (by decide) (str_bytes "E") (by decide)
      (by decide) (fun _ => 0) flags_clear⟩

/-! ### Claims on the line index, the debug callback and stale bytes -/

/-- From a line index inside the buffer every byte sequence is consumed, and the index is
inside the buffer afterwards. -/
theorem cmd_feed_defined (bs : List Nat) (s : CmdState) (hs : s.len < 32) :
    ∃ t, cmd_feed bs s = some t ∧ t.len < 32 := by
  induction bs generalizing s with
  | nil => exact ⟨s, rfl, hs⟩
  | cons d ds ih =>
    obtain ⟨v, h1, h2, _⟩ := analyse_kept d s hs
    obtain ⟨t, h3, h4⟩ := ih v h2
    exact ⟨t, by simp only [cmd_feed, h1, Option.some_bind, h3], h4⟩

/-- C22: for every byte sequence `fed` given to `bsp_uart_factory_cmd_analyse` from the
initial state, the calls return and the line index held afterwards is below 32; so the
next call, with any byte `d`, stores `d` at a position inside the 32-byte buffer (it is
defined), leaves the index below 32 again, and leaves it 0 if `d` is a newline. -/
theorem line_index_stays_in_buffer (fed : List Nat) :
    ∃ u, cmd_feed fed cmd_init = some u ∧ u.len < 32 ∧
      ∀ d, ∃ v, bsp_uart_factory_cmd_analyse d u = some v ∧ v.len < 32 ∧
        (d = 10 → v.len = 0) := by
  obtain ⟨u, h1, h2⟩ := cmd_feed_defined fed cmd_init (by decide)
  refine ⟨u, h1, h2, ?_⟩
  intro d
  by_cases hd : d = 10
  · subst hd
    exact ⟨_, analyse_newline u h2, Nat.zero_lt_succ 31, fun _ => rfl⟩
  · exact ⟨_, analyse_nonl d u hd h2, Nat.mod_lt _ (by decide), fun h => absurd h hd⟩

/-- C25: for every combination of the interrupt status flags, every received value and
every state of the recogniser with its line index inside the buffer,
`bsp_uart_debug_com_irq_cb` returns and its trace sends nothing on any UART; it leaves
the recogniser as it was when receive-data-ready is clear, and hands exactly the
received byte to `bsp_uart_factory_cmd_analyse` when it is set. -/
theorem debug_rx_sends_nothing (irq : UartIrq) (s : CmdState) (hs : s.len < 32) :
    ∃ t tr, bsp_uart_debug_com_irq_cb irq s = some (t, tr) ∧
      (∀ u, sent_on u tr = []) ∧
      (irq.rxdne = false → t = s) ∧
      (irq.rxdne = true → bsp_uart_factory_cmd_analyse (irq.dat % 256) s = some t) := by
  have hsent : ∀ u, sent_on u (oref_clear DEBUG_UART irq.oref) = [] := by
    intro u
    cases irq.oref <;> simp [sent_on, oref_clear]
  by_cases hrx : irq.rxdne = true
  · obtain ⟨t, h1, _, _⟩ := analyse_kept (irq.dat % 256) s hs
    refine ⟨t, _, ?_, hsent, ?_, fun _ => h1⟩
    · simp [bsp_uart_debug_com_irq_cb, hrx, h1]
    · intro h; rw [h] at hrx; exact absurd hrx (by decide)
  · have hrx2 : irq.rxdne = false := by
      cases h : irq.rxdne
      · rfl
      · exact absurd h hrx
    refine ⟨s, _, ?_, hsent, fun _ => rfl, ?_⟩
    · simp [bsp_uart_debug_com_irq_cb, hrx2]
    · intro h; exact absurd h hrx

/-- Witness of C25: the byte `A` received with all three status flags set, in the start-up
state. -/
theorem debug_rx_sends_nothing_witness :
    ∃ t tr, bsp_uart_debug_com_irq_cb ⟨true, true, true, 0x41⟩ cmd_init = some (t, tr) ∧
      (∀ u, sent_on u tr = []) ∧
      ((⟨true, true, true, 0x41⟩ : UartIrq).rxdne = false → t = cmd_init) ∧
      ((⟨true, true, true, 0x41⟩ : UartIrq).rxdne = true →
        bsp_uart_factory_cmd_analyse ((⟨true, true, true, 0x41⟩ : UartIrq).dat % 256) cmd_init
          = some t) :=
  debug_rx_sends_nothing ⟨true, true, true, 0x41⟩ cmd_init (by decide)

/-- C27: stale bytes cannot influence matching.  For any two states of the recogniser with
line index 0 and the same flags, whatever their buffers hold, feeding the same byte
sequence returns in both, with the same flags and the same line index. -/
theorem stale_bytes_do_not_matter (bs : List Nat) (buf1 buf2 : Nat → Nat)
    (f : factory_func_check_t) :
    ∃ t1 t2, cmd_feed bs ⟨0, buf1, f⟩ = some t1 ∧ cmd_feed bs ⟨0, buf2, f⟩ = some t2 ∧
      t1.len = t2.len ∧ t1.factory_func_check = t2.factory_func_check := by
  obtain ⟨t1, h1, _⟩ := cmd_feed_defined bs ⟨0, buf1, f⟩ (Nat.zero_lt_succ 31)
  obtain ⟨t2, h2, _⟩ := cmd_feed_defined bs ⟨0, buf2, f⟩ (Nat.zero_lt_succ 31)
  have h := cmd_feed_same_line bs ⟨0, buf1, f⟩ ⟨0, buf2, f⟩
    ⟨rfl, rfl, fun i hi => absurd hi (Nat.not_lt_zero i)⟩
  rw [h1, h2] at h
  simp only [Option.map_some', Option.some.injEq, Prod.mk.injEq] at h
  exact ⟨t1, t2, h1, h2, h.1, h.2⟩

/-! ### Claims on the number of flags one call changes and on the RS-485 overshoot -/

theorem changed_term_le (c : Prop) [Decidable c] (v : Nat) :
    (if v = (if c then 0xFF else v) then 0 else 1) ≤ (if c then 1 else 0) := by
  by_cases h : c
  · simp only [h, if_true]
    split_ifs <;> omega
  · simp only [h, if_false, if_true]
    omega

/-- Seven conditional stores whose conditions fix the first two bytes of the buffer to
different values change at most one flag. -/
theorem changed_le_one (c1 c2 c3 c4 c5 c6 c7 : Prop) [Decidable c1] [Decidable c2]
    [Decidable c3] [Decidable c4] [Decidable c5] [Decidable c6] [Decidable c7] (a b : Nat)
    (f1 : c1 → a = 67 ∧ b = 65) (f2 : c2 → a = 82) (f3 : c3 → a = 80)
    (f4 : c4 → a = 67 ∧ b = 85) (f5 : c5 → a = 86) (f6 : c6 → a = 79) (f7 : c7 → a = 84)
    (f : factory_func_check_t) :
    flags_changed f
      ⟨if c1 then 0xFF else f.can_sign, if c2 then 0xFF else f.rs485_sign,
        if c3 then 0xFF else f.pc_com_sign, if c4 then 0xFF else f.current_sign,
        if c5 then 0xFF else f.voltage_sign, if c6 then 0xFF else f.overflow_sign,
        if c7 then 0xFF else f.temperatur_sign⟩ ≤ 1 := by
  have g1 : (if c1 then 1 else 0) ≤ (if a = 67 ∧ b = 65 then 1 else 0) := by
    by_cases h : c1
    · simp [h, f1 h]
    · simp [h]
  have g2 : (if c2 then 1 else 0) ≤ (if a = 82 then 1 else 0) := by
    by_cases h : c2
    · simp [h, f2 h]
    · simp [h]
  have g3 : (if c3 then 1 else 0) ≤ (if a = 80 then 1 else 0) := by
    by_cases h : c3
    · simp [h, f3 h]
    · simp [h]
  have g4 : (if c4 then 1 else 0) ≤ (if a = 67 ∧ b = 85 then 1 else 0) := by
    by_cases h : c4
    · simp [h, f4 h]
    · simp [h]
  have g5 : (if c5 then 1 else 0) ≤ (if a = 86 then 1 else 0) := by
    by_cases h : c5
    · simp [h, f5 h]
    · simp [h]
  have g6 : (if c6 then 1 else 0) ≤ (if a = 79 then 1 else 0) := by
    by_cases h : c6
    · simp [h, f6 h]
    · simp [h]
  have g7 : (if c7 then 1 else 0) ≤ (if a = 84 then 1 else 0) := by
    by_cases h : c7
    · simp [h, f7 h]
    · simp [h]
  have tot : (if a = 67 ∧ b = 65 then 1 else 0) + (if a = 82 then 1 else 0)
      + (if a = 80 then 1 else 0) + (if a = 67 ∧ b = 85 then 1 else 0)
      + (if a = 86 then 1 else 0) + (if a = 79 then 1 else 0)
      + (if a = 84 then 1 else 0) ≤ 1 := by
    split_ifs <;> omega
  have t1 := changed_term_le c1 f.can_sign
  have t2 := changed_term_le c2 f.rs485_sign
  have t3 := changed_term_le c3 f.pc_com_sign
  have t4 := changed_term_le c4 f.current_sign
  have t5 := changed_term_le c5 f.voltage_sign
  have t6 := changed_term_le c6 f.overflow_sign
  have t7 := changed_term_le c7 f.temperatur_sign
  unfold flags_changed
  simp only []
  omega

/-- C28: for every state of the recogniser with its line index inside the buffer and every
byte, one call of `bsp_uart_factory_cmd_analyse` returns and changes at most one of the
seven factory flags. -/
theorem one_call_changes_at_most_one_flag (d : Nat) (s : CmdState) (hs : s.len < 32) :
    ∃ t, bsp_uart_factory_cmd_analyse d s = some t ∧
      flags_changed s.factory_func_check t.factory_func_check ≤ 1 := by
  by_cases hd : d = 10
  · subst hd
    refine ⟨_, analyse_newline s hs, ?_⟩
    simp only [cmd_match_fields]
    obtain ⟨k1, k2, k3, k4, k5, k6, k7⟩ := keywords_clean
    have first : ∀ (kw : String) (n : Nat) (buf : Nat → Nat),
        (∀ i, i < n → c_str kw i ≠ 0 ∧ c_str kw i ≠ 10) → 2 ≤ n →
        strncmp buf (c_str kw) n = 0 → buf 0 = c_str kw 0 ∧ buf 1 = c_str kw 1 := by
      intro kw n buf hk hn h0
      rw [strncmp_eq_zero_iff n _ _ (fun i hi => (hk i hi).1)] at h0
      exact ⟨h0 0 (by omega), h0 1 (by omega)⟩
    apply changed_le_one _ _ _ _ _ _ _ (buf_set s.recv_buf s.len 10 0)
      (buf_set s.recv_buf s.len 10 1)
    · intro h; exact first _ _ _ k1 (by decide) h
    · intro h; exact (first _ _ _ k2 (by decide) h).1
    · intro h; exact (first _ _ _ k3 (by decide) h).1
    · intro h; exact first _ _ _ k4 (by decide) h
    · intro h; exact (first _ _ _ k5 (by decide) h).1
    · intro h; exact (first _ _ _ k6 (by decide) h).1
    · intro h; exact (first _ _ _ k7 (by decide) h).1
  · refine ⟨_, analyse_nonl d s hd hs, ?_⟩
    simp [flags_changed]

/-- Witness of C28: the newline that ends the line "CAN", stored at offset 3. -/
theorem one_call_changes_at_most_one_flag_witness :
    ∃ t, bsp_uart_factory_cmd_analyse 10
        ⟨3, buf_write (fun _ => 0) 0 (str_bytes "CAN"), flags_clear⟩ = some t ∧
      flags_changed
        (⟨3, buf_write (fun _ => 0) 0 (str_bytes "CAN"), flags_clear⟩ : CmdState).factory_func_check
        t.factory_func_check ≤ 1 :=
  one_call_changes_at_most_one_flag 10
    ⟨3, buf_write (fun _ => 0) 0 (str_bytes "CAN"), flags_clear⟩ (by decide)

end BspUart
